import Mathlib

/-!
# memos-notion-sync: a shallow embedding of `src/index.js` and `scripts/bulk-sync.mjs`

JavaScript strings are modelled as lists of characters.  The source works on UTF-16 code
units; every pattern literal, separator and trimmed character it uses lies in the Basic
Multilingual Plane and both halves of a surrogate pair fall in the same character classes
(`.` and `[^\)]`), so matching, splitting and trimming agree with the code-unit reading on
every well-formed string.  `slice(0, 100)` counts code units and is modelled by counting
two units for a character outside the Basic Multilingual Plane.
-/

namespace MemosNotionSync

/-! ## Strings -/

abbrev Str := List Char

/-- ECMAScript `LineTerminator`: LF, CR, LS, PS. -/
def isLineTerminator (c : Char) : Bool :=
  c.toNat = 0x0A || c.toNat = 0x0D || c.toNat = 0x2028 || c.toNat = 0x2029

/-- ECMAScript `WhiteSpace`: TAB, VT, FF, ZWNBSP and the Unicode space separators. -/
def isWhiteSpace (c : Char) : Bool :=
  c.toNat = 0x09 || c.toNat = 0x0B || c.toNat = 0x0C || c.toNat = 0x20 || c.toNat = 0xA0 ||
  c.toNat = 0x1680 || (0x2000 ≤ c.toNat && c.toNat ≤ 0x200A) || c.toNat = 0x202F ||
  c.toNat = 0x205F || c.toNat = 0x3000 || c.toNat = 0xFEFF

/-- Characters removed by `String.prototype.trim`. -/
def isTrimChar (c : Char) : Bool := isWhiteSpace c || isLineTerminator c

def trimStart (s : Str) : Str := s.dropWhile isTrimChar

def trimEnd (s : Str) : Str := (s.reverse.dropWhile isTrimChar).reverse

/-- `String.prototype.trim`. -/
def trim (s : Str) : Str := trimEnd (trimStart s)

/-- `String.prototype.split` with a one-character separator: the pieces between separators
(a string with k separators gives k + 1 pieces, the empty string gives one empty piece). -/
def splitOn (sep : Char) : Str → List Str
  | [] => [[]]
  | c :: cs =>
    if c = sep then [] :: splitOn sep cs
    else match splitOn sep cs with
      | [] => [[c]]
      | p :: ps => (c :: p) :: ps

/-- `String.prototype.startsWith`. -/
def startsWith : Str → Str → Bool
  | _, [] => true
  | [], _ :: _ => false
  | c :: cs, p :: ps => c = p && startsWith cs ps

/-- `String.prototype.endsWith`. -/
def endsWith (s suffix : Str) : Bool := startsWith s.reverse suffix.reverse

/-- Number of UTF-16 code units of a character. -/
def utf16Units (c : Char) : Nat := if c.toNat < 0x10000 then 1 else 2

/-- The longest run of leading characters that fits in `n` UTF-16 code units. -/
def takeUnits : Nat → Str → Str
  | _, [] => []
  | n, c :: cs => if utf16Units c ≤ n then c :: takeUnits (n - utf16Units c) cs else []

/-- `String.prototype.slice(0, 100)`: the first hundred UTF-16 code units.  When the cut
falls between the two halves of a surrogate pair the source keeps the first half, which is
no character; the model ends the string before it. -/
def slice100 (s : Str) : Str := takeUnits 100 s

/-! ## A backtracking matcher for the regular expressions of the source

The fragment covers what the source's four patterns use: literal characters, one-character
classes, concatenation, greedy `?`, lazy `*?` and greedy `+` over a one-character class,
one capture group, and the anchors `^` and `$` (no `m` flag).  `Re.go` lists the ways a
pattern matches at the start of its input in the order a backtracking engine tries them, so
the head of the list is the match that `exec` reports at that position. -/

inductive Re where
  | chr (c : Char)
  | cls (p : Char → Bool)
  | cat (a b : Re)
  | opt (a : Re)
  | starLazy (p : Char → Bool)
  | plusGreedy (p : Char → Bool)
  | cap (a : Re)
  | bol
  | eol

/-- The class `.` (no `s` flag): anything but a line terminator. -/
def dot (c : Char) : Bool := !isLineTerminator c

/-- The class `[^c]`. -/
def notChar (c : Char) (d : Char) : Bool := !(d = c)

/-- Inputs left after `p*?`, shortest repetition first. -/
def lazyRests (p : Char → Bool) : Str → List Str
  | [] => [[]]
  | c :: cs => (c :: cs) :: (if p c then lazyRests p cs else [])

/-- Inputs left after `p*`, longest repetition first. -/
def greedyRests (p : Char → Bool) : Str → List Str
  | [] => [[]]
  | c :: cs => (if p c then greedyRests p cs else []) ++ [c :: cs]

/-- Inputs left after `p+`, longest repetition first. -/
def plusRests (p : Char → Bool) : Str → List Str
  | [] => []
  | c :: cs => if p c then greedyRests p cs else []

/-- All matches of a pattern at the start of `s`, in backtracking order, each given as the
input left after the match and the text of capture group 1.  `n` is the length of the
whole subject string, which `^` compares with. -/
def Re.go (n : Nat) : Re → Str → List (Str × Option Str)
  | .chr c, s =>
    match s with
    | d :: t => if d = c then [(t, none)] else []
    | [] => []
  | .cls p, s =>
    match s with
    | d :: t => if p d then [(t, none)] else []
    | [] => []
  | .cat a b, s =>
    (a.go n s).flatMap fun x => (b.go n x.1).map fun y => (y.1, y.2.orElse fun _ => x.2)
  | .opt a, s => a.go n s ++ [(s, none)]
  | .starLazy p, s => (lazyRests p s).map fun r => (r, none)
  | .plusGreedy p, s => (plusRests p s).map fun r => (r, none)
  | .cap a, s => (a.go n s).map fun x => (x.1, some (s.take (s.length - x.1.length)))
  | .bol, s => if s.length = n then [(s, none)] else []
  | .eol, s => if s.isEmpty then [(s, none)] else []

/-- One `exec` from the current position: the leftmost position at which the pattern
matches.  Returns the text skipped before the match, capture group 1 and the input after
the match. -/
def Re.search (re : Re) (n : Nat) : Str → Option (Str × Option Str × Str)
  | [] => ((re.go n []).head?).map fun x => ([], x.2, x.1)
  | c :: cs =>
    match (re.go n (c :: cs)).head? with
    | some x => some ([], x.2, x.1)
    | none => (Re.search re n cs).map fun x => (c :: x.1, x.2.1, x.2.2)

/-- The loop `while ((match = re.exec(s)) !== null) out.push(match[1])` of a `g` pattern:
each `exec` resumes where the previous match ended.  The fuel bounds the number of
iterations; the patterns it is used with consume at least one character per match, so
`s.length + 1` rounds are enough.  Group 1 takes part in every match of those patterns. -/
def Re.execAll (re : Re) (n : Nat) : Nat → Str → List Str
  | 0, _ => []
  | fuel + 1, s =>
    match re.search n s with
    | none => []
    | some x => x.2.1.getD [] :: Re.execAll re n fuel x.2.2

/-- Replacing every match of a `g` pattern by the empty string. -/
def Re.removeAll (re : Re) (n : Nat) : Nat → Str → Str
  | 0, s => s
  | fuel + 1, s =>
    match re.search n s with
    | none => s
    | some x => x.1 ++ Re.removeAll re n fuel x.2.2

/-- Replacing the first match of a pattern without the `g` flag by the empty string. -/
def Re.removeFirst (re : Re) (s : Str) : Str :=
  match re.search s.length s with
  | none => s
  | some x => x.1 ++ x.2.2

/-- `RegExp.prototype.test` of a pattern without the `g` flag. -/
def Re.test (re : Re) (s : Str) : Bool := (re.search s.length s).isSome

/-- The group `(https?:\/\/[^\)]+)` of the image pattern, without its parentheses. -/
def urlPattern : Re :=
  .cat (.chr 'h') <| .cat (.chr 't') <| .cat (.chr 't') <| .cat (.chr 'p') <|
  .cat (.opt (.chr 's')) <| .cat (.chr ':') <| .cat (.chr '/') <| .cat (.chr '/') <|
  .plusGreedy (notChar ')')

/-- The part `\]\((https?:\/\/[^\)]+)\)` of the image pattern. -/
def linkPattern : Re :=
  .cat (.chr ']') <| .cat (.chr '(') <| .cat (.cap urlPattern) (.chr ')')

/-- The pattern `/!\[.*?\]\((https?:\/\/[^\)]+)\)/` of `parseMemosContent`. -/
def imageRegex : Re :=
  .cat (.chr '!') <| .cat (.chr '[') <| .cat (.starLazy dot) linkPattern

/-- The pattern `/\/$/` of `convertToPublicR2Url`, `trimTrailingSlash`, `validateMemosConfig`. -/
def trailingSlashRegex : Re := .cat (.chr '/') .eol

/-- The pattern `/^https?:\/\//` of `validateMemosConfig`. -/
def httpSchemeRegex : Re :=
  .cat .bol <| .cat (.chr 'h') <| .cat (.chr 't') <| .cat (.chr 't') <| .cat (.chr 'p') <|
  .cat (.opt (.chr 's')) <| .cat (.chr ':') <| .cat (.chr '/') (.chr '/')

/-- The images pushed by the `exec` loop of `parseMemosContent` on a string. -/
def execImages (s : Str) : List Str := imageRegex.execAll s.length (s.length + 1) s

/-- The expression `s.replace(imageRegex, '').trim()` on a string. -/
def stripImages (s : Str) : Str := trim (imageRegex.removeAll s.length (s.length + 1) s)

/-! ## JavaScript values

The values handled by the source come out of `JSON.parse` (webhook payloads, API replies);
`undefined` is added for absent properties.  Numbers are the integer-valued ones: fractions,
`-0`, `NaN` and the infinities are outside the model. -/

inductive JsVal where
  | undefined
  | null
  | bool (b : Bool)
  | num (n : Int)
  | str (s : Str)
  | arr (xs : List JsVal)
  | obj (fields : List (String × JsVal))

/-- Errors a step of the source can throw. -/
inductive JsError where
  | typeError
  | rangeError
  | syntaxError
  | network
  | failed (what : String) (status : Nat) (text : Str)
  deriving DecidableEq

instance instDecidableEqExcept {ε α : Type} [DecidableEq ε] [DecidableEq α] :
    DecidableEq (Except ε α)
  | .ok a, .ok b => if h : a = b then isTrue (by rw [h]) else isFalse (by simp [h])
  | .error a, .error b => if h : a = b then isTrue (by rw [h]) else isFalse (by simp [h])
  | .ok _, .error _ => isFalse (by simp)
  | .error _, .ok _ => isFalse (by simp)

/-- `ToBoolean`. -/
def JsVal.truthy : JsVal → Bool
  | .undefined => false
  | .null => false
  | .bool b => b
  | .num n => n != 0
  | .str s => !s.isEmpty
  | .arr _ => true
  | .obj _ => true

/-- The property read `v.k` for the keys the source reads (none of them is defined on a
prototype of a JSON value): a `TypeError` on `undefined` and `null`, the own property of an
object, `undefined` otherwise. -/
def JsVal.get (v : JsVal) (k : String) : Except JsError JsVal :=
  match v with
  | .undefined => .error .typeError
  | .null => .error .typeError
  | .obj fields => .ok ((fields.lookup k).getD .undefined)
  | _ => .ok .undefined

/-- The optional read `v?.k`. -/
def JsVal.getOpt (v : JsVal) (k : String) : JsVal :=
  match v with
  | .obj fields => (fields.lookup k).getD .undefined
  | _ => .undefined

/-- The operator `a || b` on values whose evaluation cannot throw. -/
def JsVal.or (a b : JsVal) : JsVal := if a.truthy then a else b

/-- The test `v === 'literal'`. -/
def JsVal.isStr (v : JsVal) (s : Str) : Bool :=
  match v with
  | .str t => t = s
  | _ => false

/-- `Array.from(new Set(xs))`: first occurrences, in insertion order. -/
def setInsert (acc : List Str) (u : Str) : List Str := if u ∈ acc then acc else acc ++ [u]

def setOf (xs : List Str) : List Str := xs.foldl setInsert []

/-! ## `parseMemosContent` -/

/-- Function `parseMemosContent` of `src/index.js`, lines 189-203.  The `exec` loop runs on
`ToString(content)` and cannot throw; `content.replace` then throws a `TypeError` unless
`content` is a string (no other JSON value has a `replace` method). -/
def Index.parseMemosContent (content : JsVal) : Except JsError (Str × List Str) :=
  match content with
  | .str s => .ok (stripImages s, execImages s)
  | _ => .error .typeError

/-- `ToString` of the falsy values other than the empty string. -/
def falsyToString : JsVal → Str
  | .undefined => "undefined".toList
  | .null => "null".toList
  | .bool _ => "false".toList
  | _ => "0".toList

/-- Function `parseMemosContent` of `scripts/bulk-sync.mjs`, lines 255-264.  The `exec` loop
runs on `ToString(content)`; the text comes from `(content || '').replace(...)`, which
throws a `TypeError` when `content` is truthy and not a string. -/
def Bulk.parseMemosContent (content : JsVal) : Except JsError (Str × List Str) :=
  match content with
  | .str s => .ok (stripImages s, execImages s)
  | v => if v.truthy then .error .typeError else .ok (stripImages [], execImages (falsyToString v))

/-! ## `extractAttachmentUrls` (the same text in both files) -/

/-- The callback `att => att.externalLink || att.external_link || att.content`. -/
def pickLink (att : JsVal) : Except JsError JsVal :=
  match att.get "externalLink" with
  | .error e => .error e
  | .ok a =>
    if a.truthy then .ok a
    else match att.get "external_link" with
      | .error e => .error e
      | .ok b => if b.truthy then .ok b else att.get "content"

/-- `attachments.map(pickLink)`, stopping at the first element on which the callback throws. -/
def mapLinks : List JsVal → Except JsError (List JsVal)
  | [] => .ok []
  | att :: rest =>
    match pickLink att with
    | .error e => .error e
    | .ok v =>
      match mapLinks rest with
      | .error e => .error e
      | .ok vs => .ok (v :: vs)

/-- The callback `url => typeof url === 'string' && url.startsWith('http')`, returning the
string when it is kept. -/
def keepHttp (url : JsVal) : Option Str :=
  match url with
  | .str s => if startsWith s "http".toList then some s else none
  | _ => none

/-- Function `extractAttachmentUrls`, `src/index.js` lines 206-211 and
`scripts/bulk-sync.mjs` lines 280-285. -/
def extractAttachmentUrls (attachments : JsVal) : Except JsError (List Str) :=
  match attachments with
  | .arr xs =>
    match mapLinks xs with
    | .error e => .error e
    | .ok vs => .ok (vs.filterMap keepHttp)
  | _ => .ok []

/-! ## Page body -/

/-- The paragraph block pushed for one line. -/
def paragraphBlock (para : Str) : JsVal :=
  .obj [("object", .str "block".toList), ("type", .str "paragraph".toList),
    ("paragraph", .obj [("rich_text", .arr [.obj [("text", .obj [("content", .str para)])]])])]

/-- The image block pushed for one URL. -/
def imageBlock (url : Str) : JsVal :=
  .obj [("object", .str "block".toList), ("type", .str "image".toList),
    ("image", .obj [("type", .str "external".toList), ("external", .obj [("url", .str url)])])]

/-- The callback `p => p.trim()` of `filter`: a line is kept when its trimmed text is not empty. -/
def keepLine (p : Str) : Bool := !(trim p).isEmpty

/-- Function `buildChildren` of `scripts/bulk-sync.mjs`, lines 228-253. -/
def buildChildren (text : Str) (images : List Str) : List JsVal :=
  let children : List JsVal := []
  let children :=
    if !text.isEmpty then
      let paragraphs := (splitOn '\n' text).filter keepLine
      children ++ paragraphs.map paragraphBlock
    else children
  children ++ images.map imageBlock

/-- The block construction of the webhook handler, `src/index.js` lines 69-95. -/
def Index.children (text : Str) (images : List Str) : List JsVal :=
  let children : List JsVal := []
  let children :=
    if !text.isEmpty then
      let paragraphs := (splitOn '\n' text).filter keepLine
      children ++ paragraphs.map paragraphBlock
    else children
  children ++ images.map imageBlock

/-! ## `convertToPublicR2Url` -/

/-- The two accessors of a parsed `URL` that the source reads. -/
structure URLParts where
  hostname : Str
  pathname : Str
  deriving DecidableEq

/-- Function `convertToPublicR2Url` of `scripts/bulk-sync.mjs`, lines 266-278.  The platform's
`new URL(url)` is the parameter `parseURL`; `none` stands for the `TypeError` it throws on
a string that is not a URL, which the `catch` swallows. -/
def convertToPublicR2Url (parseURL : Str → Option URLParts) (R2_PUBLIC_DOMAIN : Str)
    (url : Str) : Str :=
  if R2_PUBLIC_DOMAIN.isEmpty then url
  else
    match parseURL url with
    | some parsed =>
      if endsWith parsed.hostname ".r2.cloudflarestorage.com".toList then
        let base := trailingSlashRegex.removeFirst R2_PUBLIC_DOMAIN
        base ++ parsed.pathname
      else url
    | none => url

/-- Lower-case letters and digits, the characters of a plain host label. -/
def isLabelChar (c : Char) : Bool := c.isLower || c.isDigit

/-- A plain host: labels of lower-case letters and digits separated by dots, none empty, the
last one starting with a letter (so that it is no IPv4 number). -/
def isPlainHost (h : Str) : Bool :=
  let labels := splitOn '.' h
  labels.all (fun l => !l.isEmpty && l.all isLabelChar) &&
    (match labels.getLast? with
      | some (c :: _) => c.isLower
      | _ => false)

/-- Characters of a plain path: letters, digits, `-`, `_`, `.`, `~` and `/`. -/
def isPlainPathChar (c : Char) : Bool :=
  c.isAlphanum || c = '-' || c = '_' || c = '.' || c = '~' || c = '/'

/-- A path without dot segments: no piece between slashes is `.` or `..`. -/
def noDotSegment (path : Str) : Bool :=
  (splitOn '/' path).all fun seg => !(seg = ['.']) && !(seg = ['.', '.'])

/-- The plain fragment of the platform's `new URL`: `http://` or `https://`, a plain host,
and an optional path of plain characters without dot segments.  On such a string the URL
parser returns the host and the path as written (`/` for an absent path): nothing in them
is case-folded, percent-encoded, a dot segment or a port.  `none` means that the string is
outside the fragment, on which the platform parser may well succeed; the fragment is used
only to give the parser's answer on plain URLs. -/
def plainURL (s : Str) : Option URLParts :=
  let rest :=
    if startsWith s "https://".toList then some (s.drop 8)
    else if startsWith s "http://".toList then some (s.drop 7)
    else none
  match rest with
  | none => none
  | some r =>
    let host := r.takeWhile (fun c => !(c = '/'))
    let path := r.dropWhile (fun c => !(c = '/'))
    if isPlainHost host && path.all isPlainPathChar && noDotSegment path then
      some ⟨host, if path.isEmpty then "/".toList else path⟩
    else none

/-! ## `normalizeTime` -/

/-- Decimal digits of `n`, left-padded with zeros to `width`. -/
def padZero (width n : Nat) : Str :=
  let d := Nat.toDigits 10 n
  List.replicate (width - d.length) '0' ++ d

/-- Year, month and day of the proleptic Gregorian calendar for a day number counted from
1970-01-01. -/
def civilFromDays (days : Int) : Int × Nat × Nat :=
  let z := days + 719468
  let era := z / 146097
  let doe := z - era * 146097
  let yoe := (doe - doe / 1460 + doe / 36524 - doe / 146096) / 365
  let doy := doe - (365 * yoe + yoe / 4 - yoe / 100)
  let mp := (5 * doy + 2) / 153
  let d := doy - (153 * mp + 2) / 5 + 1
  let m := if mp < 10 then mp + 3 else mp - 9
  let y := yoe + era * 400 + (if m ≤ 2 then 1 else 0)
  (y, m.toNat, d.toNat)

/-- The year field of `toISOString`: four digits for years 0 to 9999, otherwise a sign and
six digits. -/
def isoYear (y : Int) : Str :=
  if 0 ≤ y ∧ y ≤ 9999 then padZero 4 y.toNat
  else (if y < 0 then '-' else '+') :: padZero 6 y.natAbs

/-- The text `YYYY-MM-DDTHH:mm:ss.sssZ` of a time value in milliseconds. -/
def isoText (ms : Int) : Str :=
  let days := ms / 86400000
  let inDay := (ms % 86400000).toNat
  let (y, m, d) := civilFromDays days
  isoYear y ++ '-' :: padZero 2 m ++ '-' :: padZero 2 d ++ 'T' ::
    padZero 2 (inDay / 3600000) ++ ':' :: padZero 2 (inDay / 60000 % 60) ++ ':' ::
    padZero 2 (inDay / 1000 % 60) ++ '.' :: padZero 3 (inDay % 1000) ++ ['Z']

/-- `new Date(ms).toISOString()` for an integral time value: a `RangeError` outside
±8.64e15 ms (an invalid date), else the ISO text. -/
def toISOString (ms : Int) : Except JsError Str :=
  if ms < -8640000000000000 ∨ 8640000000000000 < ms then .error .rangeError
  else .ok (isoText ms)

/-- Function `normalizeTime` of `scripts/bulk-sync.mjs`, lines 287-296.  `now` is the time
value of `new Date()`, `parseDate` the platform's date-string parser (`none` for an invalid
date, on which `toISOString` throws). -/
def normalizeTime (now : Int) (parseDate : Str → Option Int) (input : JsVal) :
    Except JsError Str :=
  if !input.truthy then toISOString now
  else
    match input with
    | .num n => toISOString (n * 1000)
    | .str s =>
      match parseDate s with
      | some ms => toISOString ms
      | none => .error .rangeError
    | v =>
      match v.getOpt "seconds" with
      | .num n => toISOString (n * 1000)
      | _ => toISOString now

/-! ## Effects and platform

Outbound requests and delays are recorded as a list of events.  The replies of the two
remote services are given by a `World`, which sees the events so far and the request. -/

structure Call where
  method : String
  url : Str
  headers : List (String × Str)
  body : Option JsVal

inductive Event where
  | fetch (c : Call)
  | sleep (ms : Int)

/-- Outcome of `await fetch(...)`: the promise rejects, or a response arrives with its
status, its body text (`res.text()`) and its body as JSON (`res.json()`, `none` when the
body does not parse). -/
inductive FetchResult where
  | rejected
  | response (status : Nat) (text : Str) (json : Option JsVal)

/-- `Response.ok`. -/
def isOk (status : Nat) : Bool := 200 ≤ status && status ≤ 299

abbrev World := List Event → Call → FetchResult

/-- What the source takes from the JavaScript platform apart from `fetch`: the clock, the
URL parser, the date-string parser, the time value of `new Date(v * 1000)` for a `v` that
is not a number, and `ToString` of a value that is not a string. -/
structure Platform where
  now : Int
  parseURL : Str → Option URLParts
  parseDate : Str → Option Int
  timeValue : JsVal → Option Int
  stringOf : JsVal → Str

/-- A value inside a template literal. -/
def Platform.template (P : Platform) (v : JsVal) : Str :=
  match v with
  | .str s => s
  | w => P.stringOf w

/-! ## The webhook handler, `src/index.js` -/

/-- The bindings of `env` read by the worker: a string, or `none` when not configured. -/
structure Env where
  NOTION_TOKEN : Option Str
  NOTION_DATABASE_ID : Option Str
  MEMOS_API_BASE : Option Str
  MEMOS_API_TOKEN : Option Str

/-- A binding inside a template literal. -/
def templateOpt : Option Str → Str
  | some s => s
  | none => "undefined".toList

/-- A binding as a property value. -/
def valueOpt : Option Str → JsVal
  | some s => .str s
  | none => .undefined

/-- The incoming request: its method and the outcome of `request.json()` (`none` when the
body is not JSON). -/
structure Request where
  method : String
  json : Option JsVal

/-- Body of the worker's response: plain text, `JSON.stringify` of a value with the JSON
content type, or `JSON.stringify({ error: e.message, stack: e.stack })` of a caught error. -/
inductive Body where
  | text (s : Str)
  | json (v : JsVal)
  | thrown (e : JsError)

structure Response where
  status : Nat
  body : Body

structure MemosConfig where
  ok : Bool
  base : Str
  token : Option Str
  errors : List String

/-- Function `validateMemosConfig`, lines 265-286. -/
def validateMemosConfig (env : Env) : MemosConfig :=
  let base := env.MEMOS_API_BASE
  let token := env.MEMOS_API_TOKEN
  let errors : List String :=
    match base with
    | none => ["缺少 MEMOS_API_BASE"]
    | some b =>
      if b.isEmpty then ["缺少 MEMOS_API_BASE"]
      else if !httpSchemeRegex.test b then ["MEMOS_API_BASE 必须是 http/https URL"]
      else []
  let errors :=
    match token with
    | none => errors ++ ["缺少 MEMOS_API_TOKEN"]
    | some t => if t.isEmpty then errors ++ ["缺少 MEMOS_API_TOKEN"] else errors
  { ok := errors.isEmpty
    base := match base with
      | none => []
      | some b => if b.isEmpty then [] else trailingSlashRegex.removeFirst b
    token := token
    errors := errors }

/-- Function `fetchAttachmentImagesAfterDelay`, lines 214-262, started after the events
`hist`. -/
def fetchAttachmentImagesAfterDelay (W : World) (env : Env) (memo : JsVal) (delayMs : Int)
    (hist : List Event) : Except JsError (List Str) × List Event :=
  if !(memo.getOpt "name").truthy then (.ok [], hist)
  else
    let memosConfig := validateMemosConfig env
    if !memosConfig.ok then (.ok [], hist)
    else
      let hist := if delayMs > 0 then hist ++ [.sleep delayMs] else hist
      match memo.getOpt "name" with
      | .str name =>
        let memoId := ((splitOn '/' name).getLast?).getD []
        let url := memosConfig.base ++ "/memos/".toList ++ memoId ++ "/attachments".toList
        let call : Call :=
          { method := "GET", url := url,
            headers := [("Authorization", "Bearer ".toList ++ templateOpt memosConfig.token)],
            body := none }
        match W hist call with
        | .rejected => (.error .network, hist ++ [.fetch call])
        | .response status _ json =>
          let hist := hist ++ [.fetch call]
          if !isOk status then (.ok [], hist)
          else
            match json with
            | none => (.ok [], hist)
            | some data =>
              let attachments := (data.getOpt "attachments").or (.arr [])
              (extractAttachmentUrls attachments, hist)
      | _ => (.error .typeError, hist)

/-- The expression `memo.create_time?.seconds ? new Date(memo.create_time.seconds *
1000).toISOString() : new Date().toISOString()`, lines 99-101. -/
def Index.createTimeISO (P : Platform) (memo : JsVal) : Except JsError Str :=
  match memo.get "create_time" with
  | .error e => .error e
  | .ok createTime =>
    let seconds := createTime.getOpt "seconds"
    if seconds.truthy then
      match seconds with
      | .num n => toISOString (n * 1000)
      | v =>
        match P.timeValue v with
        | some ms => toISOString ms
        | none => .error .rangeError
    else toISOString P.now

/-- The call `.slice(0, 100)` on a title value: strings and arrays have the method, on
any other value the call throws. -/
def sliceTitle (v : JsVal) : Except JsError JsVal :=
  match v with
  | .str s => .ok (.str (slice100 s))
  | .arr xs => .ok (.arr (xs.take 100))
  | _ => .error .typeError

/-- The `properties` object of a page, lines 123-141 (and lines 160-170, 190-200 of the
bulk script). -/
def pageProperties (title : JsVal) (createTimeISO : Str) (memoId : JsVal) : JsVal :=
  .obj [("Name", .obj [("title", .arr [.obj [("text", .obj [("content", title)])]])]),
    ("Created", .obj [("date", .obj [("start", .str createTimeISO)])]),
    ("Memos ID", .obj [("rich_text", .arr [.obj [("text", .obj [("content", memoId)])]])])]

/-- The page-create request of the worker, lines 112-144. -/
def Index.createCall (env : Env) (title : JsVal) (createTimeISO : Str) (memoId : JsVal)
    (children : List JsVal) : Call :=
  { method := "POST"
    url := "https://api.notion.com/v1/pages".toList
    headers := [("Authorization", "Bearer ".toList ++ templateOpt env.NOTION_TOKEN),
      ("Notion-Version", "2022-06-28".toList), ("Content-Type", "application/json".toList)]
    body := some (.obj [("parent", .obj [("database_id", valueOpt env.NOTION_DATABASE_ID)]),
      ("properties", pageProperties title createTimeISO memoId),
      ("children", .arr children)]) }

/-- The handler from line 43 on, for a payload whose event is `memos.memo.created`. -/
def Index.handleCreated (W : World) (P : Platform) (env : Env) (memo : JsVal) :
    Except JsError Response × List Event :=
  match memo.get "content" with
  | .error e => (.error e, [])
  | .ok content =>
  match Index.parseMemosContent content with
  | .error e => (.error e, [])
  | .ok (text, contentImages) =>
  match extractAttachmentUrls ((memo.getOpt "attachments").or (.arr [])) with
  | .error e => (.error e, [])
  | .ok payloadAttachmentImages =>
  match fetchAttachmentImagesAfterDelay W env memo 10000 [] with
  | (.error e, hist) => (.error e, hist)
  | (.ok fetchedAttachmentImages, hist) =>
  let images := setOf (contentImages ++ payloadAttachmentImages ++ fetchedAttachmentImages)
  let children := Index.children text images
  let memoId := (memo.getOpt "name").or (.str "unknown".toList)
  match Index.createTimeISO P memo with
  | .error e => (.error e, hist)
  | .ok createTimeISO =>
  match sliceTitle (if text.isEmpty then memoId else .str text) with
  | .error e => (.error e, hist)
  | .ok title =>
  let call := Index.createCall env title createTimeISO memoId children
  match W hist call with
  | .rejected => (.error .network, hist ++ [.fetch call])
  | .response status errorText json =>
    let hist := hist ++ [.fetch call]
    if !isOk status then
      (.ok { status := 500, body := .json (.obj [("error", .str errorText)]) }, hist)
    else
      match json with
      | none => (.error .syntaxError, hist)
      | some _ =>
        (.ok { status := 200,
               body := .json (.obj [("status", .str "success".toList), ("memo_id", memoId),
                 ("images_count", .num images.length)]) }, hist)

/-- The `try` block of the handler, lines 26-171. -/
def Index.handlerTry (W : World) (P : Platform) (env : Env) (req : Request) :
    Except JsError Response × List Event :=
  match req.json with
  | none => (.error .syntaxError, [])
  | some payload =>
    match payload.get "activityType", payload.get "memo" with
    | .ok activityType, .ok memo =>
      if !activityType.isStr "memos.memo.created".toList then
        (.ok { status := 200, body := .json (.obj [("status", .str "ignored".toList)]) }, [])
      else Index.handleCreated W P env memo
    | _, _ => (.error .typeError, [])

/-- The worker's `fetch(request, env)`, lines 12-185: the response and the outbound events. -/
def Index.fetch (W : World) (P : Platform) (env : Env) (req : Request) :
    Response × List Event :=
  if req.method ≠ "POST" then
    ({ status := 405, body := .text "Method not allowed".toList }, [])
  else
    match Index.handlerTry W P env req with
    | (.ok response, hist) => (response, hist)
    | (.error e, hist) => ({ status := 500, body := .thrown e }, hist)

/-! ## The bulk synchronizer, `scripts/bulk-sync.mjs` -/

/-- The constant `NOTION_TOKEN`, line 21. -/
def NOTION_TOKEN : Str := []

/-- The constant `NOTION_DATABASE_ID`, line 22. -/
def NOTION_DATABASE_ID : Str := []

/-- The settings read from the environment, lines 24-28.  `NOTION_DELAY_MS` is `none` when
`Number.parseInt` gives `NaN`. -/
structure BulkConfig where
  R2_PUBLIC_DOMAIN : Str
  NOTION_DELAY_MS : Option Int
  NOTION_UPDATE_EXISTING : Bool

/-- Function `notionHeaders`, lines 298-304. -/
def notionHeaders : List (String × Str) :=
  [("Authorization", "Bearer ".toList ++ NOTION_TOKEN),
    ("Notion-Version", "2022-06-28".toList), ("Content-Type", "application/json".toList)]

/-- The query request of `findNotionPageByMemoId`, lines 130-141. -/
def queryCall (memoId : JsVal) : Call :=
  { method := "POST"
    url := "https://api.notion.com/v1/databases/".toList ++ NOTION_DATABASE_ID ++ "/query".toList
    headers := notionHeaders
    body := some (.obj [("filter", .obj [("property", .str "Memos ID".toList),
      ("rich_text", .obj [("equals", memoId)])])]) }

/-- The element read `v?.[0]`. -/
def JsVal.first (v : JsVal) : JsVal :=
  match v with
  | .arr (x :: _) => x
  | .obj fields => (fields.lookup "0").getD .undefined
  | .str (c :: _) => .str [c]
  | _ => .undefined

/-- Function `findNotionPageByMemoId`, lines 129-148. -/
def findNotionPageByMemoId (W : World) (hist : List Event) (memoId : JsVal) :
    Except JsError JsVal × List Event :=
  let call := queryCall memoId
  match W hist call with
  | .rejected => (.error .network, hist ++ [.fetch call])
  | .response status text json =>
    let hist := hist ++ [.fetch call]
    if !isOk status then (.error (.failed "查询 Notion 失败" status text), hist)
    else
      match json with
      | none => (.error .syntaxError, hist)
      | some data =>
        match data.get "results" with
        | .error e => (.error e, hist)
        | .ok results => (.ok (((results.first).getOpt "id").or .null), hist)

/-- The argument `memo.displayTime || memo.createTime || memo.create_time`. -/
def memoTime (memo : JsVal) : Except JsError JsVal :=
  match memo.get "displayTime", memo.get "createTime", memo.get "create_time" with
  | .ok a, .ok b, .ok c => .ok ((a.or b).or c)
  | _, _, _ => .error .typeError

/-- The title `(text || memo.snippet || memoId).slice(0, 100)`. -/
def bulkTitle (memo : JsVal) (text : Str) (memoId : JsVal) : Except JsError JsVal :=
  if !text.isEmpty then sliceTitle (.str text)
  else
    match memo.get "snippet" with
    | .error e => .error e
    | .ok snippet => sliceTitle (snippet.or memoId)

/-- What `createNotionPage` and `updateNotionPage` compute before their request: the
children, the creation time, the memo id and the page properties. -/
def pageParts (P : Platform) (memo : JsVal) (text : Str) (images : List Str) :
    Except JsError (List JsVal × JsVal) :=
  let children := buildChildren text images
  match memoTime memo with
  | .error e => .error e
  | .ok t =>
  match normalizeTime P.now P.parseDate t with
  | .error e => .error e
  | .ok createTimeISO =>
  match memo.get "name" with
  | .error e => .error e
  | .ok name =>
  let memoId := name.or (.str "unknown".toList)
  match bulkTitle memo text memoId with
  | .error e => .error e
  | .ok title => .ok (children, pageProperties title createTimeISO memoId)

/-- Function `createNotionPage`, lines 150-179. -/
def createNotionPage (W : World) (P : Platform) (hist : List Event) (memo : JsVal)
    (text : Str) (images : List Str) : Except JsError Unit × List Event :=
  match pageParts P memo text images with
  | .error e => (.error e, hist)
  | .ok (children, properties) =>
    let call : Call :=
      { method := "POST", url := "https://api.notion.com/v1/pages".toList,
        headers := notionHeaders,
        body := some (.obj [("parent", .obj [("database_id", .str NOTION_DATABASE_ID)]),
          ("properties", properties), ("children", .arr children)]) }
    match W hist call with
    | .rejected => (.error .network, hist ++ [.fetch call])
    | .response status text _ =>
      if !isOk status then
        (.error (.failed "创建 Notion 页面失败" status text), hist ++ [.fetch call])
      else (.ok (), hist ++ [.fetch call])

/-- Function `replaceNotionChildren`, lines 213-226. -/
def replaceNotionChildren (W : World) (P : Platform) (hist : List Event) (pageId : JsVal)
    (children : List JsVal) : Except JsError Unit × List Event :=
  if children.isEmpty then (.ok (), hist)
  else
    let call : Call :=
      { method := "PATCH",
        url := "https://api.notion.com/v1/blocks/".toList ++ P.template pageId ++
          "/children".toList,
        headers := notionHeaders,
        body := some (.obj [("children", .arr children)]) }
    match W hist call with
    | .rejected => (.error .network, hist ++ [.fetch call])
    | .response status text _ =>
      if !isOk status then
        (.error (.failed "更新 Notion children 失败" status text), hist ++ [.fetch call])
      else (.ok (), hist ++ [.fetch call])

/-- Function `updateNotionPage`, lines 181-211. -/
def updateNotionPage (W : World) (P : Platform) (hist : List Event) (pageId : JsVal)
    (memo : JsVal) (text : Str) (images : List Str) : Except JsError Unit × List Event :=
  match pageParts P memo text images with
  | .error e => (.error e, hist)
  | .ok (children, properties) =>
    let call : Call :=
      { method := "PATCH",
        url := "https://api.notion.com/v1/pages/".toList ++ P.template pageId,
        headers := notionHeaders,
        body := some (.obj [("properties", properties)]) }
    match W hist call with
    | .rejected => (.error .network, hist ++ [.fetch call])
    | .response status text _ =>
      if !isOk status then
        (.error (.failed "更新 Notion 属性失败" status text), hist ++ [.fetch call])
      else replaceNotionChildren W P (hist ++ [.fetch call]) pageId children

/-- The counters and failure list of `main`, lines 43-47, with the events so far. -/
structure RunState where
  processed : Nat
  created : Nat
  skipped : Nat
  updated : Nat
  failures : List (JsVal × JsError)
  events : List Event

/-- The loop body of `main` before its `try`, lines 50-62: the memo id, the text and the
rewritten images.  An error here is thrown out of the loop. -/
def loopPrelude (cfg : BulkConfig) (P : Platform) (memo : JsVal) :
    Except JsError (JsVal × Str × List Str) :=
  match memo.get "name" with
  | .error e => .error e
  | .ok memoId =>
  match Bulk.parseMemosContent ((memo.getOpt "content").or (.str [])) with
  | .error e => .error e
  | .ok (text, contentImages) =>
  match extractAttachmentUrls ((memo.getOpt "attachments").or (.arr [])) with
  | .error e => .error e
  | .ok attachmentsFromList =>
    let imagesSet := setOf (contentImages ++ attachmentsFromList)
    let images := imagesSet.map (convertToPublicR2Url P.parseURL cfg.R2_PUBLIC_DOMAIN)
    .ok (memoId, text, images)

/-- The `try`/`catch` of the loop body, lines 64-88. -/
def loopTry (cfg : BulkConfig) (W : World) (P : Platform) (st : RunState) (memo : JsVal)
    (memoId : JsVal) (text : Str) (images : List Str) : RunState :=
  match findNotionPageByMemoId W st.events memoId with
  | (.error e, hist) => { st with failures := st.failures ++ [(memoId, e)], events := hist }
  | (.ok existingPageId, hist) =>
    if existingPageId.truthy && !cfg.NOTION_UPDATE_EXISTING then
      { st with skipped := st.skipped + 1, events := hist }
    else
      let written : (Except JsError Unit × List Event) × RunState :=
        if existingPageId.truthy && cfg.NOTION_UPDATE_EXISTING then
          (updateNotionPage W P hist existingPageId memo text images,
            { st with updated := st.updated + 1 })
        else
          (createNotionPage W P hist memo text images, { st with created := st.created + 1 })
      match written with
      | ((.error e, hist), _) =>
        { st with failures := st.failures ++ [(memoId, e)], events := hist }
      | ((.ok _, hist), counted) =>
        match cfg.NOTION_DELAY_MS with
        | some ms =>
          if ms > 0 then { counted with events := hist ++ [.sleep ms] }
          else { counted with events := hist }
        | none => { counted with events := hist }

/-- One iteration of the `for await` loop of `main`, lines 49-89. -/
def loopBody (cfg : BulkConfig) (W : World) (P : Platform) (st : RunState) (memo : JsVal) :
    Except JsError RunState :=
  match loopPrelude cfg P memo with
  | .error e => .error e
  | .ok (memoId, text, images) =>
    .ok (loopTry cfg W P { st with processed := st.processed + 1 } memo memoId text images)

/-- A request that writes to the document database: page create, property update or block
append (every request but the query). -/
def Event.isWrite : Event → Bool
  | .fetch c => c.method = "PATCH" ||
      (c.method = "POST" && c.url = "https://api.notion.com/v1/pages".toList)
  | .sleep _ => false

/-! ## Concrete inputs used below -/

/-- A world in which every request is answered `200` with the JSON body `{}`. -/
def okWorld : World := fun _ _ => .response 200 "{}".toList (some (.obj []))

/-- A platform with the clock at the epoch whose parsers accept plain URLs only. -/
def epochPlatform : Platform :=
  { now := 0, parseURL := plainURL, parseDate := fun _ => none, timeValue := fun _ => none,
    stringOf := fun _ => [] }

/-- A worker environment with nothing configured. -/
def emptyEnv : Env :=
  { NOTION_TOKEN := none, NOTION_DATABASE_ID := none, MEMOS_API_BASE := none,
    MEMOS_API_TOKEN := none }

/-- The payload of the end-to-end scenario: a created event whose memo has only a content. -/
def helloPayload : JsVal :=
  .obj [("activityType", .str "memos.memo.created".toList),
    ("memo", .obj [("content", .str "Hello ![x](http://img/a.png)\nWorld".toList)])]

/-- A created event whose memo has a name and no content. -/
def noContentPayload : JsVal :=
  .obj [("activityType", .str "memos.memo.created".toList),
    ("memo", .obj [("name", .str "memos/1".toList)])]

/-- A payload whose event is not a creation. -/
def updatedPayload : JsVal :=
  .obj [("activityType", .str "memos.memo.updated".toList),
    ("memo", .obj [("name", .str "memos/1".toList)])]

/-- The page-create request of the end-to-end scenario as the worker builds it. -/
def helloCall (env : Env) (iso : Str) : Call :=
  Index.createCall env (.str "Hello \nWorld".toList) iso (.str "unknown".toList)
    [paragraphBlock "Hello ".toList, paragraphBlock "World".toList,
      imageBlock "http://img/a.png".toList]

/-- The page-create request that the scenario of the specification describes: paragraphs
`Hello` and `World`, title `Hello\nWorld`. -/
def helloCallClaimed (env : Env) (iso : Str) : Call :=
  Index.createCall env (.str "Hello\nWorld".toList) iso (.str "unknown".toList)
    [paragraphBlock "Hello".toList, paragraphBlock "World".toList,
      imageBlock "http://img/a.png".toList]

/-- The three URL-bearing fields, in the order the source tries them. -/
def linkFields : List String := ["externalLink", "external_link", "content"]

/-- Selection as the specification words it: the value of the first of the three fields
that the record has. -/
def firstPresent (r : List (String × JsVal)) : Option JsVal :=
  (linkFields.filterMap fun k => r.lookup k).head?

/-- Selection by truthiness: the value of the first of the three fields whose value is
truthy. -/
def firstTruthy (r : List (String × JsVal)) : Option JsVal :=
  (linkFields.filterMap fun k => r.lookup k).find? JsVal.truthy

/-- A record whose `externalLink` is present and empty and whose `content` is a URL. -/
def emptyLinkRecord : List (String × JsVal) :=
  [("externalLink", .str []), ("content", .str "http://x".toList)]

/-- A blank line: every character is one that `trim` removes. -/
def isBlank (l : Str) : Bool := l.all isTrimChar

/-- What the document API reads in a block: a paragraph with its text content, or an
external image with its URL. -/
inductive BlockView where
  | paragraph (content : Str)
  | image (url : Str)
  deriving DecidableEq

/-- Reading a block as the document API does: `object` must be `block`; a `paragraph` block
carries one rich-text item whose `text.content` is the paragraph's content; an `image`
block of type `external` carries its URL in `external.url`. -/
def viewBlock (b : JsVal) : Option BlockView :=
  if (b.getOpt "object").isStr "block".toList then
    if (b.getOpt "type").isStr "paragraph".toList then
      match (b.getOpt "paragraph").getOpt "rich_text" with
      | .arr [item] =>
        match (item.getOpt "text").getOpt "content" with
        | .str content => some (.paragraph content)
        | _ => none
      | _ => none
    else if (b.getOpt "type").isStr "image".toList then
      if ((b.getOpt "image").getOpt "type").isStr "external".toList then
        match ((b.getOpt "image").getOpt "external").getOpt "url" with
        | .str url => some (.image url)
        | _ => none
      else none
    else none
  else none

/-- The non-blank lines of a text: its pieces between newlines that do not consist of
white space only. -/
def nonBlankLines (text : Str) : List Str := (splitOn '\n' text).filter fun l => !isBlank l

/-- The blocks that the specification asks for: a paragraph per non-blank line, then an
external image per URL. -/
def expectedViews (text : Str) (images : List Str) : List (Option BlockView) :=
  ((nonBlankLines text).map fun l => some (BlockView.paragraph l)) ++
    images.map fun u => some (BlockView.image u)

/-- A path as the URL parser reports it for a URL with a host: empty or starting with `/`. -/
def isPathname (p : Str) : Bool := p.isEmpty || p.head? = some '/'

/-- Removing one trailing slash, if there is one. -/
def stripTrailingSlash (d : Str) : Str := if d.getLast? = some '/' then d.dropLast else d

/-- The storage provider's private domain suffix. -/
def storageSuffix : Str := ".r2.cloudflarestorage.com".toList

/-- The reference of claim C5, in its words: the input when no public domain is configured;
otherwise, if the URL parses and its host ends with the storage suffix, the public domain
with one trailing slash stripped followed by the URL's path; the input in every other
case. -/
def rewriteReference (parseURL : Str → Option URLParts) (publicDomain url : Str) : Str :=
  if publicDomain = [] then url
  else
    match parseURL url with
    | none => url
    | some u =>
      if storageSuffix <:+ u.hostname then stripTrailingSlash publicDomain ++ u.pathname
      else url

/-- A public domain that is itself a storage-provider URL with a path. -/
def storageDomain : Str := "https://x.r2.cloudflarestorage.com/prefix".toList

/-- A public domain on another host. -/
def imageDomain : Str := "https://img.example.com/".toList

/-- A storage-provider URL. -/
def storageUrl : Str := "https://a.r2.cloudflarestorage.com/k".toList

/-- A memo with a name and a content. -/
def plainMemo : JsVal := .obj [("name", .str "memos/1".toList), ("content", .str "hi".toList)]

/-- A world in which every request is answered `200` with one query result of id `page1`. -/
def foundWorld : World := fun _ _ =>
  .response 200 [] (some (.obj [("results", .arr [.obj [("id", .str "page1".toList)]])]))

/-- The default settings of the bulk script without a public domain. -/
def defaultConfig : BulkConfig :=
  { R2_PUBLIC_DOMAIN := [], NOTION_DELAY_MS := some 200, NOTION_UPDATE_EXISTING := false }

/-- The counters at the start of `main`. -/
def initialState : RunState :=
  { processed := 0, created := 0, skipped := 0, updated := 0, failures := [], events := [] }

/-- The text of an image marker `![alt](url)`. -/
def marker (alt url : Str) : Str := '!' :: '[' :: alt ++ ']' :: '(' :: url ++ [')']

/-- An image link of a document with the text that follows it. -/
structure Segment where
  alt : Str
  url : Str
  after : Str

/-- A document: leading text, then image markers each followed by text. -/
def render (before : Str) (segs : List Segment) : Str :=
  before ++ segs.flatMap fun s => marker s.alt s.url ++ s.after

/-- The document with every image marker removed. -/
def withoutMarkers (before : Str) (segs : List Segment) : Str :=
  before ++ segs.flatMap fun s => s.after

/-- The condition of the specification on a link: the URL starts with `http://` or
`https://`. -/
def httpUrl (url : Str) : Bool :=
  startsWith url "http://".toList || startsWith url "https://".toList

/-- A text in which no `](` occurs. -/
def noSeparator : Str → Bool
  | [] => true
  | c :: cs => !(c = ']' && cs.head? = some '(') && noSeparator cs

/-- An alt text without line terminator in which no `](` occurs. -/
def goodAlt (alt : Str) : Bool := alt.all dot && noSeparator alt

/-- A URL that is `http://` or `https://` followed by at least one character, none of its
characters being `)`. -/
def goodUrl (url : Str) : Bool :=
  ((startsWith url "http://".toList && 7 < url.length) ||
    (startsWith url "https://".toList && 8 < url.length)) && url.all (notChar ')')

/-- A text in which no `![` occurs. -/
def noMarkerStart : Str → Bool
  | [] => true
  | c :: cs => !(c = '!' && cs.head? = some '[') && noMarkerStart cs

/-- A link whose URL is just `http://`. -/
def bareSchemeLink : Segment := { alt := "x".toList, url := "http://".toList, after := [] }

/-- A link whose alt text spans two lines. -/
def twoLineAltLink : Segment := { alt := "a\nb".toList, url := "http://x".toList, after := [] }

/-- A link whose URL contains parentheses. -/
def parenUrlLink : Segment :=
  { alt := "x".toList, url := "http://a/b(c).png".toList, after := [] }

/-- A link whose alt text contains a `](` followed by a URL. -/
def bracketAltLink : Segment :=
  { alt := "a](http://y) ".toList, url := "http://z".toList, after := [] }

/-- A plain link. -/
def simpleLink : Segment := { alt := "x".toList, url := "http://a".toList, after := [] }

/-- The link of the end-to-end scenario with the text after it. -/
def helloLink : Segment :=
  { alt := "x".toList, url := "http://img/a.png".toList, after := "\nWorld".toList }

/-! ## Theorems -/

/-- C7: for every POST request whose JSON payload has an `activityType` other than
`memos.memo.created`, the worker answers 200 with the body `{"status":"ignored"}` and makes
no outbound call, whatever the environment and the remote services. -/
theorem webhook_ignores_other_events (W : World) (P : Platform) (env : Env)
    (payload activityType : JsVal)
    (hread : payload.get "activityType" = .ok activityType)
    (hother : activityType ≠ .str "memos.memo.created".toList) :
    Index.fetch W P env { method := "POST", json := some payload } =
      ({ status := 200, body := .json (.obj [("status", .str "ignored".toList)]) }, []) := by
  have hstr : activityType.isStr "memos.memo.created".toList = false := by
    cases activityType <;> simp_all [JsVal.isStr]
  have hmemo : ∃ memo, payload.get "memo" = .ok memo := by
    cases payload <;> simp_all [JsVal.get]
  obtain ⟨memo, hmemo⟩ := hmemo
  unfold Index.fetch Index.handlerTry
  simp only [hread, hmemo, hstr]
  simp

theorem webhook_ignores_other_events_witness :
    Index.fetch okWorld epochPlatform emptyEnv { method := "POST", json := some updatedPayload } =
      ({ status := 200, body := .json (.obj [("status", .str "ignored".toList)]) }, []) :=
  webhook_ignores_other_events okWorld epochPlatform emptyEnv updatedPayload
    (.str "memos.memo.updated".toList) rfl (by simp)

/-- C10: on content that is absent or `null` the parser of the webhook handler throws a
`TypeError` (the worker then answers 500 without any outbound call), while the parser of
the bulk script returns empty text and no image; on the empty string both return empty
text and no image. -/
theorem parse_missing_content :
    Index.parseMemosContent .undefined = .error .typeError ∧
    Index.parseMemosContent .null = .error .typeError ∧
    Index.parseMemosContent (.str []) = .ok ([], []) ∧
    Bulk.parseMemosContent .undefined = .ok ([], []) ∧
    Bulk.parseMemosContent .null = .ok ([], []) ∧
    Bulk.parseMemosContent (.str []) = .ok ([], []) ∧
    ∀ (W : World) (P : Platform) (env : Env),
      Index.fetch W P env { method := "POST", json := some noContentPayload } =
        ({ status := 500, body := .thrown .typeError }, []) :=
  ⟨rfl, rfl, rfl, rfl, rfl, rfl, fun _ _ _ => rfl⟩

/-- C2 (amended): for the payload with `activityType` `memos.memo.created`, content
`Hello ![x](http://img/a.png)\nWorld` and no attachments, when the document API answers
the create request with a success status and a JSON body, that request is the only outbound
call; its children are the paragraph blocks `Hello ` (with the space that preceded the
marker) and `World` followed by one image block for `http://img/a.png`, its title is
`Hello \nWorld`, and the response is 200 with `images_count` 1. -/
theorem scenario_hello_world (W : World) (P : Platform) (env : Env) (iso : Str) (status : Nat)
    (text : Str) (reply : JsVal)
    (hnow : toISOString P.now = .ok iso)
    (hreply : W [] (helloCall env iso) = .response status text (some reply))
    (hok : isOk status = true) :
    Index.fetch W P env { method := "POST", json := some helloPayload } =
      ({ status := 200,
         body := .json (.obj [("status", .str "success".toList),
           ("memo_id", .str "unknown".toList), ("images_count", .num 1)]) },
       [.fetch (helloCall env iso)]) := by
  have hparse : Index.parseMemosContent (.str "Hello ![x](http://img/a.png)\nWorld".toList) =
      .ok ("Hello \nWorld".toList, ["http://img/a.png".toList]) := by decide
  have hchildren : Index.children "Hello \nWorld".toList [ "http://img/a.png".toList] =
      [paragraphBlock "Hello ".toList, paragraphBlock "World".toList,
      imageBlock "http://img/a.png".toList] := rfl
  have hset : setOf (["http://img/a.png".toList] ++ [] ++ []) = ["http://img/a.png".toList] := by decide
  have hcreated : Index.handleCreated W P env
      (.obj [("content", .str "Hello ![x](http://img/a.png)\nWorld".toList)]) =
      (Except.ok ⟨200, .json (.obj [("status", .str "success".toList),
           ("memo_id", .str "unknown".toList), ("images_count", .num 1)])⟩,
       [.fetch (helloCall env iso)]) := by
    unfold Index.handleCreated
    have h1 : (JsVal.obj [("content", JsVal.str "Hello ![x](http://img/a.png)\nWorld".toList)]).get "content" = .ok (JsVal.str "Hello ![x](http://img/a.png)\nWorld".toList) := rfl
    have h2 : extractAttachmentUrls (((JsVal.obj [("content", JsVal.str "Hello ![x](http://img/a.png)\nWorld".toList)]).getOpt "attachments").or (.arr [])) = .ok [] := rfl
    have h3 : fetchAttachmentImagesAfterDelay W env (JsVal.obj [("content", JsVal.str "Hello ![x](http://img/a.png)\nWorld".toList)]) 10000 [] = (.ok [], []) := rfl
    have h4 : Index.createTimeISO P (JsVal.obj [("content", JsVal.str "Hello ![x](http://img/a.png)\nWorld".toList)]) = .ok iso := by
      rw [← hnow]; rfl
    have h5 : ((JsVal.obj [("content", JsVal.str "Hello ![x](http://img/a.png)\nWorld".toList)]).getOpt "name").or (.str "unknown".toList) = .str "unknown".toList := rfl
    have h6 : sliceTitle (if ("Hello \nWorld".toList).isEmpty then (.str "unknown".toList) else .str "Hello \nWorld".toList) = .ok (.str "Hello \nWorld".toList) := rfl
    simp only [h1, hparse, h2, h3, h4, h5, hset, hchildren, h6]
    unfold helloCall at hreply
    simp only [List.nil_append, hreply, hok]
    rfl
  unfold Index.fetch Index.handlerTry
  have hp : helloPayload.get "activityType" = .ok (.str "memos.memo.created".toList) := rfl
  have hm : helloPayload.get "memo" = .ok (.obj [("content", .str "Hello ![x](http://img/a.png)\nWorld".toList)]) := rfl
  have hs : (JsVal.str "memos.memo.created".toList).isStr "memos.memo.created".toList = true := by
    simp [JsVal.isStr]
  simp only [hp, hm, hs, hcreated]
  simp

theorem scenario_hello_world_witness :
    Index.fetch okWorld epochPlatform emptyEnv { method := "POST", json := some helloPayload } =
      ({ status := 200,
         body := .json (.obj [("status", .str "success".toList),
           ("memo_id", .str "unknown".toList), ("images_count", .num 1)]) },
       [.fetch (helloCall emptyEnv "1970-01-01T00:00:00.000Z".toList)]) :=
  scenario_hello_world okWorld epochPlatform emptyEnv "1970-01-01T00:00:00.000Z".toList 200
    "{}".toList (.obj []) (by decide) rfl (by decide)

/-- C2 (as stated, refuted): in the scenario the worker sends the paragraph `Hello ` with
the space that preceded the image marker and the title `Hello \nWorld`, which is not the
request the scenario describes. -/
theorem scenario_hello_world_counterexample :
    Index.fetch okWorld epochPlatform emptyEnv { method := "POST", json := some helloPayload } =
      ({ status := 200,
         body := .json (.obj [("status", .str "success".toList),
           ("memo_id", .str "unknown".toList), ("images_count", .num 1)]) },
       [.fetch (helloCall emptyEnv "1970-01-01T00:00:00.000Z".toList)]) ∧
    helloCall emptyEnv "1970-01-01T00:00:00.000Z".toList ≠
      helloCallClaimed emptyEnv "1970-01-01T00:00:00.000Z".toList := by
  refine ⟨rfl, ?_⟩
  simp [helloCall, helloCallClaimed, Index.createCall, pageProperties]

/-- C9 (as stated, refuted): the number 0 is taken for an absent value and gives the current
time, while `{seconds: 0}` gives the epoch; a number of seconds beyond the range of `Date`
makes `toISOString` throw. -/
theorem normalizeTime_counterexample :
    normalizeTime 1700000000000 (fun _ => none) (.num 0) =
      .ok "2023-11-14T22:13:20.000Z".toList ∧
    normalizeTime 1700000000000 (fun _ => none) (.obj [("seconds", .num 0)]) =
      .ok "1970-01-01T00:00:00.000Z".toList ∧
    normalizeTime 1700000000000 (fun _ => none) (.num 8640000000001) = .error .rangeError := by
  decide

/-- C9 (amended): for every non-zero whole number of seconds `n` within the range of `Date`
(at most 8 640 000 000 000 in absolute value), `normalizeTime(n)` and
`normalizeTime({seconds: n})` both return the ISO-8601 UTC text of the instant `n * 1000` ms
after the epoch, whatever the clock; 1700000000 gives `2023-11-14T22:13:20.000Z`. -/
theorem normalizeTime_seconds (now : Int) (parseDate : Str → Option Int) (n : Int)
    (hzero : n ≠ 0) (hlow : -8640000000000 ≤ n) (hhigh : n ≤ 8640000000000) :
    normalizeTime now parseDate (.num n) = .ok (isoText (n * 1000)) ∧
    normalizeTime now parseDate (.obj [("seconds", .num n)]) = .ok (isoText (n * 1000)) ∧
    isoText (1700000000 * 1000) = "2023-11-14T22:13:20.000Z".toList := by
  have hr : ¬ (n * 1000 < -8640000000000000 ∨ 8640000000000000 < n * 1000) := by omega
  refine ⟨?_, ?_, by decide⟩
  · simp [normalizeTime, JsVal.truthy, hzero, toISOString, hr]
  · simp [normalizeTime, JsVal.truthy, JsVal.getOpt, List.lookup, toISOString, hr]

theorem normalizeTime_seconds_witness :
    normalizeTime 0 (fun _ => none) (.num 1700000000) =
      .ok "2023-11-14T22:13:20.000Z".toList ∧
    normalizeTime 0 (fun _ => none) (.obj [("seconds", .num 1700000000)]) =
      .ok "2023-11-14T22:13:20.000Z".toList := by
  have h := normalizeTime_seconds 0 (fun _ => none) 1700000000 (by decide) (by decide)
    (by decide)
  rw [h.2.2] at h
  exact ⟨h.1, h.2.1⟩

theorem keepHttp_falsy (v : JsVal) (h : v.truthy = false) : keepHttp v = none := by
  cases v <;> simp_all [keepHttp, JsVal.truthy, startsWith]

theorem pickLink_obj (r : List (String × JsVal)) :
    ∃ v, pickLink (.obj r) = .ok v ∧ keepHttp v = (firstTruthy r).bind keepHttp := by
  have hu : JsVal.truthy .undefined = false := rfl
  have hk : keepHttp .undefined = none := rfl
  simp only [pickLink, JsVal.get, firstTruthy, linkFields, List.filterMap]
  rcases h1 : r.lookup "externalLink" with _ | a <;>
  rcases h2 : r.lookup "external_link" with _ | b <;>
  rcases h3 : r.lookup "content" with _ | c <;>
  simp only [Option.getD_some, Option.getD_none, hu] <;>
  (try cases ha : a.truthy) <;> (try cases hb : b.truthy) <;> (try cases hc : c.truthy) <;>
  simp_all [keepHttp_falsy, List.find?]

theorem mapLinks_obj (records : List (List (String × JsVal))) :
    ∃ vs, mapLinks (records.map .obj) = .ok vs ∧
      vs.filterMap keepHttp = records.filterMap fun r => (firstTruthy r).bind keepHttp := by
  induction records with
  | nil => exact ⟨[], rfl, rfl⟩
  | cons r rest ih =>
    obtain ⟨vs, hvs, hk⟩ := ih
    obtain ⟨v, hv, hkv⟩ := pickLink_obj r
    refine ⟨v :: vs, ?_, ?_⟩
    · simp [mapLinks, hv, hvs]
    · simp only [List.filterMap_cons, hkv, hk]

/-- C3 (as stated, refuted): a record whose `externalLink` is present but empty and whose
`content` is an http URL yields that URL, although its first present field is not a URL. -/
theorem extractAttachmentUrls_counterexample :
    extractAttachmentUrls (.arr [.obj emptyLinkRecord]) = .ok ["http://x".toList] ∧
    ([emptyLinkRecord].filterMap fun r => (firstPresent r).bind keepHttp) = [] := by
  decide

/-- C3 (amended): for every array of attachment records, `extractAttachmentUrls` selects for
each record the first field among `externalLink`, `external_link`, `content` whose value is
truthy, keeps exactly the selected values that are strings starting with `http`, and
returns them in input order, duplicates included; for every input that is not an array it
returns the empty list without raising an error. -/
theorem extractAttachmentUrls_first_truthy :
    (∀ records : List (List (String × JsVal)),
      extractAttachmentUrls (.arr (records.map .obj)) =
        .ok (records.filterMap fun r => (firstTruthy r).bind keepHttp)) ∧
    (∀ v : JsVal, (∀ xs, v ≠ .arr xs) → extractAttachmentUrls v = .ok []) := by
  constructor
  · intro records
    obtain ⟨vs, hvs, hk⟩ := mapLinks_obj records
    simp [extractAttachmentUrls, hvs, hk]
  · intro v hv
    cases v <;> simp_all [extractAttachmentUrls]

theorem extractAttachmentUrls_first_truthy_witness :
    extractAttachmentUrls .null = .ok [] :=
  extractAttachmentUrls_first_truthy.2 .null (by simp)

theorem splitOn_ne_nil (sep : Char) (s : Str) : splitOn sep s ≠ [] := by
  induction s with
  | nil => simp [splitOn]
  | cons c cs ih =>
    unfold splitOn
    split
    · simp
    · split <;> simp

theorem splitOn_intercalate (sep : Char) (s : Str) :
    [sep].intercalate (splitOn sep s) = s := by
  induction s with
  | nil => simp [splitOn, List.intercalate]
  | cons c cs ih =>
    unfold splitOn
    split
    · next h =>
      subst h
      rcases hs : splitOn c cs with _ | ⟨p, ps⟩
      · exact absurd hs (splitOn_ne_nil _ _)
      · rw [hs] at ih
        simp [List.intercalate, List.intersperse] at ih ⊢
        exact ih
    · rcases hs : splitOn sep cs with _ | ⟨p, ps⟩
      · exact absurd hs (splitOn_ne_nil _ _)
      · rw [hs] at ih
        rw [← ih]
        cases ps <;> simp [List.intercalate, List.intersperse]

theorem splitOn_no_sep (sep : Char) (s : Str) : ∀ l ∈ splitOn sep s, sep ∉ l := by
  induction s with
  | nil => simp [splitOn]
  | cons c cs ih =>
    unfold splitOn
    split
    · intro l hl
      rcases List.mem_cons.1 hl with h | h
      · simp [h]
      · exact ih l h
    · next hne =>
      rcases hs : splitOn sep cs with _ | ⟨p, ps⟩
      · exact absurd hs (splitOn_ne_nil _ _)
      · rw [hs] at ih
        intro l hl
        rcases List.mem_cons.1 hl with h | h
        · subst h
          have := ih p (by simp)
          simp [this, Ne.symm hne]
        · exact ih l (by simp [h])

theorem trim_eq_nil_iff (l : Str) : trim l = [] ↔ l.all isTrimChar = true := by
  unfold trim trimEnd trimStart
  rw [List.reverse_eq_nil_iff, List.dropWhile_eq_nil_iff]
  constructor
  · intro h
    rcases hd : l.dropWhile isTrimChar with _ | ⟨x, xs⟩
    · simpa [List.dropWhile_eq_nil_iff] using hd
    · have hx : isTrimChar x = true := h x (by simp [hd])
      have := List.head_dropWhile_not isTrimChar l (by simp [hd])
      simp [hd, hx] at this
  · intro h x hx
    have : l.dropWhile isTrimChar = [] := by
      rw [List.dropWhile_eq_nil_iff]; simpa using h
    simp [this] at hx

theorem keepLine_eq (l : Str) : keepLine l = !isBlank l := by
  unfold keepLine isBlank
  rcases h : l.all isTrimChar with _ | _
  · have : trim l ≠ [] := fun ht => by
      rw [(trim_eq_nil_iff l).1 ht] at h; exact absurd h (by simp)
    cases ht : trim l with
    | nil => exact absurd ht this
    | cons a b => rfl
  · rw [(trim_eq_nil_iff l).2 h]; rfl

theorem buildChildren_eq (text : Str) (images : List Str) :
    buildChildren text images =
      (nonBlankLines text).map paragraphBlock ++ images.map imageBlock := by
  have hk : (fun l => !isBlank l) = keepLine := by
    funext l; rw [keepLine_eq]
  unfold nonBlankLines
  rw [hk]
  unfold buildChildren
  cases text with
  | nil => rfl
  | cons c cs => simp

theorem viewBlock_paragraphBlock (l : Str) :
    viewBlock (paragraphBlock l) = some (BlockView.paragraph l) := rfl

theorem viewBlock_imageBlock (u : Str) :
    viewBlock (imageBlock u) = some (BlockView.image u) := rfl

theorem buildChildren_views (text : Str) (images : List Str) :
    (buildChildren text images).map viewBlock = expectedViews text images := by
  rw [buildChildren_eq, List.map_append, List.map_map, List.map_map]
  rfl

theorem option_map_some {α β : Type} {f : α → β} {o : Option α} {b : β}
    (h : o.map f = some b) : ∃ a, f a = b := by
  cases o with
  | none => cases h
  | some a => exact ⟨a, Option.some.inj h⟩

/-- C4: for every text and every list of image URLs, `buildChildren` of the bulk script and
the block construction of the webhook handler both return blocks that read as one paragraph
per non-blank line of the text split on newline (a line is blank when all its characters
are white space), in line order with the line as text content, followed by one external
image per URL, in input order with the URL as its external URL; the number of blocks is the
number of non-blank lines plus the number of URLs, and every paragraph block comes before
every image block.  The lines are the pieces of the text between newlines: joined by
newlines they give the text back and none contains a newline. -/
theorem page_body_blocks (text : Str) (images : List Str) :
    (buildChildren text images).map viewBlock = expectedViews text images ∧
    (Index.children text images).map viewBlock = expectedViews text images ∧
    (buildChildren text images).length = (nonBlankLines text).length + images.length ∧
    (Index.children text images).length = (nonBlankLines text).length + images.length ∧
    (∀ (i j : Nat) (p u : Str),
      ((buildChildren text images).map viewBlock)[i]? = some (some (BlockView.image u)) →
      ((buildChildren text images).map viewBlock)[j]? = some (some (BlockView.paragraph p)) →
      j < i) ∧
    ['\n'].intercalate (splitOn '\n' text) = text ∧
    ∀ l ∈ splitOn '\n' text, '\n' ∉ l := by
  have hlen : (buildChildren text images).length =
      (nonBlankLines text).length + images.length := by
    simp [buildChildren_eq]
  refine ⟨buildChildren_views text images, buildChildren_views text images, hlen, hlen, ?_,
    splitOn_intercalate _ _, splitOn_no_sep _ _⟩
  intro i j p u hi hj
  rw [buildChildren_views] at hi hj
  unfold expectedViews at hi hj
  by_contra hlt
  have hij : i ≤ j := Nat.le_of_not_lt hlt
  by_cases hA : i < ((nonBlankLines text).map fun l => some (BlockView.paragraph l)).length
  · rw [List.getElem?_append_left hA, List.getElem?_map] at hi
    obtain ⟨l, hl⟩ := option_map_some hi
    cases hl
  · have hB : ((nonBlankLines text).map fun l => some (BlockView.paragraph l)).length ≤ j := by
      omega
    rw [List.getElem?_append_right hB, List.getElem?_map] at hj
    obtain ⟨l, hl⟩ := option_map_some hj
    cases hl

theorem page_body_blocks_witness :
    ((buildChildren "a\n \nb".toList ["u".toList]).map viewBlock)[0]? =
      some (some (BlockView.paragraph "a".toList)) ∧
    ((buildChildren "a\n \nb".toList ["u".toList]).map viewBlock)[2]? =
      some (some (BlockView.image "u".toList)) ∧ 0 < 2 :=
  ⟨rfl, rfl, (page_body_blocks "a\n \nb".toList ["u".toList]).2.2.2.2.1 2 0 "a".toList
    "u".toList rfl rfl⟩

theorem startsWith_iff (s p : Str) : startsWith s p = true ↔ p <+: s := by
  induction p generalizing s with
  | nil => simp [startsWith]
  | cons a p ih =>
    cases s with
    | nil => simp [startsWith]
    | cons c cs =>
      simp only [startsWith, Bool.and_eq_true, decide_eq_true_eq, ih, List.cons_prefix_cons]
      constructor <;> rintro ⟨h1, h2⟩ <;> exact ⟨h1.symm, h2⟩

theorem endsWith_iff (s suffix : Str) : endsWith s suffix = true ↔ suffix <:+ s := by
  unfold endsWith
  rw [startsWith_iff, List.reverse_prefix]

theorem search_trailingSlash (n : Nat) (s : Str) :
    trailingSlashRegex.search n s =
      if s.getLast? = some '/' then some (s.dropLast, none, []) else none := by
  induction s with
  | nil => simp [Re.search, trailingSlashRegex, Re.go]
  | cons c cs ih =>
    cases cs with
    | nil =>
      by_cases hc : c = '/'
      · subst hc
        simp [Re.search, trailingSlashRegex, Re.go]
      · simp [Re.search, trailingSlashRegex, Re.go, hc]
    | cons d ds =>
      have hgo : trailingSlashRegex.go n (c :: d :: ds) = [] := by
        by_cases hc : c = '/' <;> simp [trailingSlashRegex, Re.go, hc]
      rw [Re.search, hgo]
      simp only [List.head?_nil, ih]
      by_cases hl : (d :: ds).getLast? = some '/'
      · simp [hl, List.getLast?_cons_cons]
      · simp [hl, List.getLast?_cons_cons]

theorem removeFirst_trailingSlash (d : Str) :
    trailingSlashRegex.removeFirst d = stripTrailingSlash d := by
  unfold Re.removeFirst stripTrailingSlash
  rw [search_trailingSlash]
  by_cases h : d.getLast? = some '/' <;> simp [h]

/-- C5: `convertToPublicR2Url` equals the reference: the input when no public domain is
configured; otherwise, when the URL parses and its host name ends with
`.r2.cloudflarestorage.com`, the public domain with one trailing slash stripped followed by
the URL's path; and the unchanged input when the URL does not parse or has another host.
The result is always a string: no error is raised. -/
theorem convertToPublicR2Url_eq_reference (parseURL : Str → Option URLParts)
    (publicDomain url : Str) :
    convertToPublicR2Url parseURL publicDomain url =
      rewriteReference parseURL publicDomain url := by
  unfold convertToPublicR2Url rewriteReference
  by_cases hd : publicDomain = []
  · simp [hd]
  · have hd2 : publicDomain.isEmpty = false := by
      cases publicDomain with
      | nil => exact absurd rfl hd
      | cons a b => rfl
    simp only [hd2, hd, if_false, Bool.false_eq_true]
    cases parseURL url with
    | none => rfl
    | some u =>
      simp only [removeFirst_trailingSlash]
      by_cases hs : storageSuffix <:+ u.hostname
      · have : endsWith u.hostname ".r2.cloudflarestorage.com".toList = true :=
          (endsWith_iff u.hostname storageSuffix).2 hs
        simp only [this, hs, if_true]
      · have : endsWith u.hostname ".r2.cloudflarestorage.com".toList = false := by
          rcases h : endsWith u.hostname storageSuffix with _ | _
          · exact h
          · exact absurd ((endsWith_iff _ _).1 h) hs
        simp only [this, hs, if_false, Bool.false_eq_true]

theorem convert_of_storage (parseURL : Str → Option URLParts) (publicDomain url : Str)
    (v : URLParts) (hd : publicDomain ≠ []) (hp : parseURL url = some v)
    (hs : endsWith v.hostname storageSuffix = true) :
    convertToPublicR2Url parseURL publicDomain url =
      stripTrailingSlash publicDomain ++ v.pathname := by
  have hd2 : publicDomain.isEmpty = false := by
    cases publicDomain with
    | nil => exact absurd rfl hd
    | cons a b => rfl
  have hs2 : endsWith v.hostname ".r2.cloudflarestorage.com".toList = true := hs
  unfold convertToPublicR2Url
  simp only [hd2, hp, hs2, if_true, if_false, Bool.false_eq_true, removeFirst_trailingSlash]

theorem convert_of_other_host (parseURL : Str → Option URLParts) (publicDomain url : Str)
    (h : ∀ v, parseURL url = some v → endsWith v.hostname storageSuffix = false) :
    convertToPublicR2Url parseURL publicDomain url = url := by
  unfold convertToPublicR2Url
  by_cases hd : publicDomain.isEmpty = true
  · simp [hd]
  · simp only [hd, if_false, Bool.false_eq_true]
    cases hp : parseURL url with
    | none => rfl
    | some v =>
      have : endsWith v.hostname ".r2.cloudflarestorage.com".toList = false := h v hp
      simp only [this, if_false, Bool.false_eq_true]

theorem convert_of_empty (parseURL : Str → Option URLParts) (url : Str) :
    convertToPublicR2Url parseURL [] url = url := by
  simp [convertToPublicR2Url]

theorem dropWhile_slash (l : Str) :
    isPathname (l.dropWhile fun c => !(c = '/')) = true := by
  induction l with
  | nil => rfl
  | cons a l ih =>
    by_cases ha : a = '/'
    · subst ha
      simp [List.dropWhile, isPathname]
    · simpa [List.dropWhile, ha] using ih

theorem plainURL_pathname (s : Str) (v : URLParts) (h : plainURL s = some v) :
    isPathname v.pathname = true := by
  unfold plainURL at h
  simp only at h
  split at h
  · cases h
  · next r _ =>
    split at h
    · cases h
      simp only
      split
      · rfl
      · exact dropWhile_slash r
    · cases h

theorem plainURL_imageDomain (p : Str) (v : URLParts) (hp : isPathname p = true)
    (h : plainURL (stripTrailingSlash imageDomain ++ p) = some v) :
    endsWith v.hostname storageSuffix = false := by
  have hbase : stripTrailingSlash imageDomain = "https://img.example.com".toList := by decide
  rw [hbase] at h
  cases p with
  | nil =>
    have e : plainURL ("https://img.example.com".toList ++ []) =
        some ⟨"img.example.com".toList, "/".toList⟩ := by decide
    rw [e] at h
    cases h
    decide
  | cons c t =>
    have hc : c = '/' := by simpa [isPathname] using hp
    subst hc
    unfold plainURL at h
    simp [startsWith, List.takeWhile, List.dropWhile] at h
    obtain ⟨_, hv⟩ := h
    rw [← hv]
    show endsWith "img.example.com".toList storageSuffix = false
    decide

/-- C6 (as stated, refuted): with a public domain that is itself a storage-provider URL with
a path, rewriting a rewritten URL prepends the path once more; this holds for the plain
fragment of the URL parser and for every parser that gives the two URLs involved their host
and path. -/
theorem rewrite_twice_counterexample :
    convertToPublicR2Url plainURL storageDomain storageUrl =
      "https://x.r2.cloudflarestorage.com/prefix/k".toList ∧
    convertToPublicR2Url plainURL storageDomain
        (convertToPublicR2Url plainURL storageDomain storageUrl) =
      "https://x.r2.cloudflarestorage.com/prefix/prefix/k".toList ∧
    convertToPublicR2Url plainURL storageDomain
        (convertToPublicR2Url plainURL storageDomain storageUrl) ≠
      convertToPublicR2Url plainURL storageDomain storageUrl ∧
    ∀ parseURL : Str → Option URLParts,
      parseURL storageUrl = some ⟨"a.r2.cloudflarestorage.com".toList, "/k".toList⟩ →
      parseURL "https://x.r2.cloudflarestorage.com/prefix/k".toList =
        some ⟨"x.r2.cloudflarestorage.com".toList, "/prefix/k".toList⟩ →
      convertToPublicR2Url parseURL storageDomain
          (convertToPublicR2Url parseURL storageDomain storageUrl) ≠
        convertToPublicR2Url parseURL storageDomain storageUrl := by
  refine ⟨by decide, by decide, by decide, ?_⟩
  intro parseURL h1 h2
  have e1 : convertToPublicR2Url parseURL storageDomain storageUrl =
      "https://x.r2.cloudflarestorage.com/prefix/k".toList := by
    rw [convert_of_storage parseURL storageDomain storageUrl _ (by decide) h1 (by decide)]
    decide
  have e2 : convertToPublicR2Url parseURL storageDomain
      "https://x.r2.cloudflarestorage.com/prefix/k".toList =
      "https://x.r2.cloudflarestorage.com/prefix/prefix/k".toList := by
    rw [convert_of_storage parseURL storageDomain _ _ (by decide) h2 (by decide)]
    decide
  rw [e1, e2]
  decide

/-- C6 (amended): for every configured public domain that is not itself a storage-provider
address — the domain with one trailing slash stripped, followed by an empty path or a path
beginning with `/`, never parses to a host name ending with `.r2.cloudflarestorage.com` —
and every URL `u`, `convertToPublicR2Url(convertToPublicR2Url(u)) = convertToPublicR2Url(u)`:
a storage-provider URL is rewritten to the public domain followed by its path, and
rewriting that rewritten URL returns it unchanged.  The URL parser is any that reports, for
a URL with a storage host, a path that is empty or begins with `/`. -/
theorem rewrite_idempotent (parseURL : Str → Option URLParts) (publicDomain : Str)
    (hpath : ∀ s v, parseURL s = some v → endsWith v.hostname storageSuffix = true →
      isPathname v.pathname = true)
    (hdomain : ∀ p v, isPathname p = true →
      parseURL (stripTrailingSlash publicDomain ++ p) = some v →
      endsWith v.hostname storageSuffix = false)
    (url : Str) :
    convertToPublicR2Url parseURL publicDomain
        (convertToPublicR2Url parseURL publicDomain url) =
      convertToPublicR2Url parseURL publicDomain url ∧
    (∀ v, publicDomain ≠ [] → parseURL url = some v →
      endsWith v.hostname storageSuffix = true →
      convertToPublicR2Url parseURL publicDomain url =
        stripTrailingSlash publicDomain ++ v.pathname ∧
      convertToPublicR2Url parseURL publicDomain
          (stripTrailingSlash publicDomain ++ v.pathname) =
        stripTrailingSlash publicDomain ++ v.pathname) := by
  have hfix : ∀ v, parseURL url = some v → endsWith v.hostname storageSuffix = true →
      convertToPublicR2Url parseURL publicDomain
          (stripTrailingSlash publicDomain ++ v.pathname) =
        stripTrailingSlash publicDomain ++ v.pathname := fun v hp hs =>
    convert_of_other_host parseURL publicDomain _
      (fun w hw => hdomain v.pathname w (hpath url v hp hs) hw)
  constructor
  · by_cases hd : publicDomain = []
    · subst hd
      rw [convert_of_empty, convert_of_empty]
    · cases hp : parseURL url with
      | none =>
        have e := convert_of_other_host parseURL publicDomain url
          (fun v hv => by rw [hp] at hv; cases hv)
        rw [e, e]
      | some v =>
        cases hs : endsWith v.hostname storageSuffix with
        | false =>
          have e := convert_of_other_host parseURL publicDomain url
            (fun w hw => by rw [hp] at hw; cases hw; exact hs)
          rw [e, e]
        | true =>
          rw [convert_of_storage parseURL publicDomain url v hd hp hs]
          exact hfix v hp hs
  · intro v hd hp hs
    exact ⟨convert_of_storage parseURL publicDomain url v hd hp hs, hfix v hp hs⟩

theorem rewrite_idempotent_witness :
    convertToPublicR2Url plainURL imageDomain storageUrl = "https://img.example.com/k".toList ∧
    convertToPublicR2Url plainURL imageDomain
        (convertToPublicR2Url plainURL imageDomain storageUrl) =
      convertToPublicR2Url plainURL imageDomain storageUrl :=
  ⟨by decide, (rewrite_idempotent plainURL imageDomain
    (fun s v h _ => plainURL_pathname s v h) plainURL_imageDomain storageUrl).1⟩

theorem findNotionPageByMemoId_events (W : World) (hist : List Event) (memoId : JsVal) :
    (findNotionPageByMemoId W hist memoId).2 = hist ++ [.fetch (queryCall memoId)] := by
  unfold findNotionPageByMemoId
  simp only
  cases W hist (queryCall memoId) with
  | rejected => rfl
  | response status text json =>
    simp only
    split
    · rfl
    · cases json with
      | none => rfl
      | some data =>
        simp only
        cases data.get "results" <;> rfl

/-- C8: in the bulk synchronizer, when an iteration reaches the query for a memo, the query
finds a page (a truthy id) and update mode is disabled, the iteration ends with `skipped`
increased by exactly one, `created`, `updated` and the failure list unchanged (`processed`
counts the memo), and the query is the only request made: no page create, property update
or block append, and no delay. -/
theorem bulk_skips_existing_page (cfg : BulkConfig) (W : World) (P : Platform) (st : RunState)
    (memo memoId pageId : JsVal) (text : Str) (images : List Str)
    (hmode : cfg.NOTION_UPDATE_EXISTING = false)
    (hreach : loopPrelude cfg P memo = .ok (memoId, text, images))
    (hfound : (findNotionPageByMemoId W st.events memoId).1 = .ok pageId)
    (hpage : pageId.truthy = true) :
    loopBody cfg W P st memo =
      .ok { processed := st.processed + 1, created := st.created, skipped := st.skipped + 1,
            updated := st.updated, failures := st.failures,
            events := st.events ++ [.fetch (queryCall memoId)] } ∧
    (Event.fetch (queryCall memoId)).isWrite = false := by
  refine ⟨?_, rfl⟩
  have hev := findNotionPageByMemoId_events W st.events memoId
  unfold loopBody
  simp only [hreach]
  unfold loopTry
  rcases hres : findNotionPageByMemoId W st.events memoId with ⟨r, h⟩
  rw [hres] at hfound hev
  simp only at hfound hev
  subst hfound hev
  simp [hpage, hmode]

theorem bulk_skips_existing_page_witness :
    loopBody defaultConfig foundWorld epochPlatform initialState plainMemo =
      .ok { processed := 1, created := 0, skipped := 1, updated := 0, failures := [],
            events := [.fetch (queryCall (.str "memos/1".toList))] } ∧
    (Event.fetch (queryCall (.str "memos/1".toList))).isWrite = false :=
  bulk_skips_existing_page defaultConfig foundWorld epochPlatform initialState plainMemo
    (.str "memos/1".toList) (.str "page1".toList) "hi".toList [] rfl rfl rfl rfl

theorem greedyRests_stop (p : Char → Bool) (r : Str) (c : Char) (rest : Str)
    (hr : ∀ x ∈ r, p x = true) (hc : p c = false) :
    ∃ tl, greedyRests p (r ++ c :: rest) = (c :: rest) :: tl := by
  induction r with
  | nil => exact ⟨[], by simp [greedyRests, hc]⟩
  | cons a r ih =>
    obtain ⟨tl, htl⟩ := ih (fun x hx => hr x (List.mem_cons_of_mem _ hx))
    have ha : p a = true := hr a (List.mem_cons_self _ _)
    exact ⟨tl ++ [a :: (r ++ c :: rest)], by simp [greedyRests, ha, htl]⟩

theorem goodUrl_cases (url : Str) (h : goodUrl url = true) :
    (∀ x ∈ url, notChar ')' x = true) ∧
    ∃ c r, url = 'h' :: 't' :: 't' :: 'p' :: ':' :: '/' :: '/' :: c :: r ∨
      url = 'h' :: 't' :: 't' :: 'p' :: 's' :: ':' :: '/' :: '/' :: c :: r := by
  unfold goodUrl at h
  simp only [Bool.and_eq_true, Bool.or_eq_true, List.all_eq_true, decide_eq_true_eq] at h
  refine ⟨h.2, ?_⟩
  rcases h.1 with ⟨hp, hl⟩ | ⟨hp, hl⟩
  · obtain ⟨t, rfl⟩ := (startsWith_iff _ _).1 hp
    rcases t with _ | ⟨c, r⟩
    · simp at hl
    · exact ⟨c, r, Or.inl rfl⟩
  · obtain ⟨t, rfl⟩ := (startsWith_iff _ _).1 hp
    rcases t with _ | ⟨c, r⟩
    · simp at hl
    · exact ⟨c, r, Or.inr rfl⟩

theorem go_urlPattern (n : Nat) (url rest : Str) (h : goodUrl url = true) :
    ∃ tl, urlPattern.go n (url ++ ')' :: rest) = (')' :: rest, none) :: tl := by
  obtain ⟨hno, c, r, hu | hu⟩ := goodUrl_cases url h
  · subst hu
    have hc : notChar ')' c = true := hno c (by simp)
    have hr : ∀ x ∈ r, notChar ')' x = true := fun x hx => hno x (by simp [hx])
    obtain ⟨tl, htl⟩ := greedyRests_stop (notChar ')') r ')' rest hr (by simp [notChar])
    refine ⟨tl.map fun r => (r, none), ?_⟩
    simp [urlPattern, Re.go, plusRests, hc, htl]
  · subst hu
    have hc : notChar ')' c = true := hno c (by simp)
    have hr : ∀ x ∈ r, notChar ')' x = true := fun x hx => hno x (by simp [hx])
    obtain ⟨tl, htl⟩ := greedyRests_stop (notChar ')') r ')' rest hr (by simp [notChar])
    refine ⟨tl.map fun r => (r, none), ?_⟩
    simp [urlPattern, Re.go, plusRests, hc, htl]

theorem orElse_none_right {α : Type} (o : Option α) : (o.orElse fun _ => none) = o := by
  cases o <;> rfl

theorem go_chr_cons (n : Nat) (c d : Char) (t : Str) :
    (Re.chr c).go n (d :: t) = if d = c then [(t, none)] else [] := rfl

theorem go_chr_nil (n : Nat) (c : Char) : (Re.chr c).go n [] = [] := rfl

theorem go_cat (n : Nat) (a b : Re) (s : Str) :
    (Re.cat a b).go n s =
      (a.go n s).flatMap fun x => (b.go n x.1).map fun y => (y.1, y.2.orElse fun _ => x.2) :=
  rfl

theorem go_cap (n : Nat) (a : Re) (s : Str) :
    (Re.cap a).go n s = (a.go n s).map fun x => (x.1, some (s.take (s.length - x.1.length))) :=
  rfl

theorem go_starLazy (n : Nat) (p : Char → Bool) (s : Str) :
    (Re.starLazy p).go n s = (lazyRests p s).map fun r => (r, none) := rfl

theorem go_linkPattern (n : Nat) (url rest : Str) (h : goodUrl url = true) :
    ∃ tl, linkPattern.go n (']' :: '(' :: (url ++ ')' :: rest)) = (rest, some url) :: tl := by
  obtain ⟨tl, htl⟩ := go_urlPattern n url rest h
  have htake : List.take ((url ++ ')' :: rest).length - (')' :: rest).length)
      (url ++ ')' :: rest) = url := by
    have : (url ++ ')' :: rest).length - (')' :: rest).length = url.length := by
      simp
    rw [this, List.take_left]
  simp only [linkPattern, go_cat, go_chr_cons, go_cap, htl, List.flatMap_cons, List.map_cons,
    List.flatMap_nil, List.append_nil, List.map_nil, if_true, List.cons_append, htake]
  exact ⟨_, rfl⟩

theorem go_linkPattern_nil (n : Nat) (c : Char) (t : Str)
    (h : ¬ (c = ']' ∧ t.head? = some '(')) : linkPattern.go n (c :: t) = [] := by
  by_cases hc : c = ']'
  · subst hc
    cases t with
    | nil => simp [linkPattern, go_cat, go_chr_cons, go_chr_nil]
    | cons d t =>
      have hd : d ≠ '(' := fun hd => h ⟨rfl, by simp [hd]⟩
      simp [linkPattern, go_cat, go_chr_cons, hd]
  · simp [linkPattern, go_cat, go_chr_cons, hc]

theorem go_linkPattern_empty (n : Nat) : linkPattern.go n [] = [] := by
  simp [linkPattern, go_cat, go_chr_nil]

theorem go_imageRegex (n : Nat) (s : Str) :
    imageRegex.go n ('!' :: '[' :: s) = (lazyRests dot s).flatMap (linkPattern.go n) := by
  simp only [imageRegex, go_cat, go_chr_cons, go_starLazy, if_true, List.flatMap_cons,
    List.flatMap_nil, List.append_nil, List.map_cons, List.map_nil, List.flatMap_map,
    orElse_none_right, List.map_map]
  have hid : (fun y : Str × Option Str => (y.1, y.2)) = id := rfl
  simp only [hid, Function.comp_id, List.map_id]

theorem go_imageRegex_nil (n : Nat) (c : Char) (t : Str)
    (h : ¬ (c = '!' ∧ t.head? = some '[')) : imageRegex.go n (c :: t) = [] := by
  by_cases hc : c = '!'
  · subst hc
    cases t with
    | nil => simp [imageRegex, go_cat, go_chr_cons, go_chr_nil]
    | cons d t =>
      have hd : d ≠ '[' := fun hd => h ⟨rfl, by simp [hd]⟩
      simp [imageRegex, go_cat, go_chr_cons, hd]
  · simp [imageRegex, go_cat, go_chr_cons, hc]

theorem go_imageRegex_empty (n : Nat) : imageRegex.go n [] = [] := by
  simp [imageRegex, go_cat, go_chr_nil]

theorem noSeparator_cons (c : Char) (t : Str) (h : noSeparator (c :: t) = true) :
    ¬ (c = ']' ∧ t.head? = some '(') ∧ noSeparator t = true := by
  unfold noSeparator at h
  simp only [Bool.and_eq_true, Bool.not_eq_true', Bool.and_eq_false_iff, decide_eq_true_eq,
    decide_eq_false_iff_not] at h
  refine ⟨?_, h.2⟩
  rintro ⟨h1, h2⟩
  rcases h.1 with h3 | h3
  · exact h3 h1
  · exact h3 h2

theorem lazyRests_flatMap_skip (n : Nat) (alt y : Str) (halt : ∀ a ∈ alt, dot a = true)
    (hsep : noSeparator alt = true) (hy : y.head? ≠ some '(') :
    (lazyRests dot (alt ++ y)).flatMap (linkPattern.go n) =
      (lazyRests dot y).flatMap (linkPattern.go n) := by
  induction alt with
  | nil => rfl
  | cons a alt ih =>
    have ha : dot a = true := halt a (List.mem_cons_self _ _)
    obtain ⟨hhead, hsep2⟩ := noSeparator_cons a alt hsep
    have hgo : linkPattern.go n (a :: (alt ++ y)) = [] := by
      apply go_linkPattern_nil
      rintro ⟨h1, h2⟩
      cases alt with
      | nil => exact hy h2
      | cons d alt => exact hhead ⟨h1, by simpa using h2⟩
    rw [List.cons_append, lazyRests, List.flatMap_cons, hgo, List.nil_append, if_pos ha]
    exact ih (fun x hx => halt x (List.mem_cons_of_mem _ hx)) hsep2

theorem lazyRests_flatMap_nil (n : Nat) (s : Str) (h : noSeparator s = true) :
    (lazyRests dot s).flatMap (linkPattern.go n) = [] := by
  induction s with
  | nil => simp [lazyRests, go_linkPattern_empty]
  | cons c cs ih =>
    obtain ⟨hhead, hrest⟩ := noSeparator_cons c cs h
    rw [lazyRests, List.flatMap_cons, go_linkPattern_nil n c cs hhead, List.nil_append]
    by_cases hc : dot c = true
    · rw [if_pos hc]; exact ih hrest
    · rw [if_neg hc]; rfl

theorem marker_append (alt url rest : Str) :
    marker alt url ++ rest = '!' :: '[' :: (alt ++ ']' :: '(' :: (url ++ ')' :: rest)) := by
  simp [marker]

theorem go_imageRegex_marker (n : Nat) (alt url rest : Str) (ha : goodAlt alt = true)
    (hu : goodUrl url = true) :
    ∃ tl, imageRegex.go n (marker alt url ++ rest) = (rest, some url) :: tl := by
  unfold goodAlt at ha
  simp only [List.all_eq_true, Bool.and_eq_true] at ha
  obtain ⟨tl, htl⟩ := go_linkPattern n url rest hu
  rw [marker_append, go_imageRegex,
    lazyRests_flatMap_skip n alt _ ha.1 ha.2 (by simp), lazyRests, List.flatMap_cons, htl]
  exact ⟨_, rfl⟩

theorem search_empty (n : Nat) : imageRegex.search n [] = none := by
  simp [Re.search, go_imageRegex_empty]

theorem go_imageRegex_noSeparator (n : Nat) (s : Str) (h : noSeparator s = true) :
    imageRegex.go n s = [] := by
  cases s with
  | nil => exact go_imageRegex_empty n
  | cons c t =>
    by_cases hc : c = '!' ∧ t.head? = some '['
    · obtain ⟨h1, h2⟩ := hc
      subst h1
      cases t with
      | nil => simp at h2
      | cons d t =>
        have hd : d = '[' := by simpa using h2
        subst hd
        have h3 := (noSeparator_cons _ _ (noSeparator_cons _ _ h).2).2
        rw [go_imageRegex, lazyRests_flatMap_nil n t h3]
    · exact go_imageRegex_nil n c t hc

theorem search_noSeparator (n : Nat) (s : Str) (h : noSeparator s = true) :
    imageRegex.search n s = none := by
  induction s with
  | nil => exact search_empty n
  | cons c t ih =>
    rw [Re.search, go_imageRegex_noSeparator n _ h, List.head?_nil,
      ih (noSeparator_cons c t h).2]
    rfl

theorem noMarkerStart_cons (c : Char) (t : Str) (h : noMarkerStart (c :: t) = true) :
    ¬ (c = '!' ∧ t.head? = some '[') ∧ noMarkerStart t = true := by
  unfold noMarkerStart at h
  simp only [Bool.and_eq_true, Bool.not_eq_true', Bool.and_eq_false_iff, decide_eq_true_eq,
    decide_eq_false_iff_not] at h
  refine ⟨?_, h.2⟩
  rintro ⟨h1, h2⟩
  rcases h.1 with h3 | h3
  · exact h3 h1
  · exact h3 h2

theorem search_plain (n : Nat) (t rest : Str) (ht : noMarkerStart t = true)
    (hrest : rest.head? ≠ some '[') :
    imageRegex.search n (t ++ rest) =
      (imageRegex.search n rest).map fun x => (t ++ x.1, x.2.1, x.2.2) := by
  induction t with
  | nil =>
    rw [List.nil_append]
    cases imageRegex.search n rest <;> rfl
  | cons c t ih =>
    obtain ⟨hc, ht2⟩ := noMarkerStart_cons c t ht
    have hgo : imageRegex.go n (c :: (t ++ rest)) = [] := by
      apply go_imageRegex_nil
      rintro ⟨h1, h2⟩
      cases t with
      | nil => exact hrest h2
      | cons d t => exact hc ⟨h1, by simpa using h2⟩
    rw [List.cons_append, Re.search, hgo, List.head?_nil, ih ht2]
    cases imageRegex.search n rest <;> rfl

theorem search_marker (n : Nat) (alt url rest : Str) (ha : goodAlt alt = true)
    (hu : goodUrl url = true) :
    imageRegex.search n (marker alt url ++ rest) = some ([], some url, rest) := by
  obtain ⟨tl, htl⟩ := go_imageRegex_marker n alt url rest ha hu
  have hm : marker alt url ++ rest = '!' :: ('[' :: (alt ++ ']' :: '(' :: (url ++ ')' :: rest))) :=
    marker_append alt url rest
  rw [hm] at htl ⊢
  rw [Re.search, htl]
  rfl

theorem marker_head (alt url rest : Str) : (marker alt url ++ rest).head? ≠ some '[' := by
  rw [marker_append]
  simp

theorem render_cons (before : Str) (s : Segment) (segs : List Segment) :
    render before (s :: segs) = before ++ (marker s.alt s.url ++ render s.after segs) := by
  simp [render]

theorem withoutMarkers_cons (before : Str) (s : Segment) (segs : List Segment) :
    withoutMarkers before (s :: segs) = before ++ withoutMarkers s.after segs := by
  simp [withoutMarkers]

theorem execAll_render (n : Nat) (segs : List Segment) :
    ∀ (before : Str) (fuel : Nat), segs.length < fuel → noMarkerStart before = true →
      (∀ s ∈ segs, goodAlt s.alt = true ∧ goodUrl s.url = true ∧
        noMarkerStart s.after = true) →
      imageRegex.execAll n fuel (render before segs) = segs.map fun s => s.url := by
  induction segs with
  | nil =>
    intro before fuel hf hb _
    cases fuel with
    | zero => exact absurd hf (by simp)
    | succ fuel =>
      have : render before [] = before ++ [] := by simp [render]
      rw [this, Re.execAll, search_plain n before [] hb (by simp), search_empty]
      rfl
  | cons s segs ih =>
    intro before fuel hf hb hs
    cases fuel with
    | zero => exact absurd hf (by simp)
    | succ fuel =>
      obtain ⟨ha, hu, hafter⟩ := hs s (List.mem_cons_self _ _)
      rw [render_cons, Re.execAll, search_plain n before _ hb (marker_head _ _ _),
        search_marker n _ _ _ ha hu]
      simp only [Option.map_some', Option.getD_some, List.map_cons]
      rw [ih s.after fuel (by simpa using hf) hafter
        (fun x hx => hs x (List.mem_cons_of_mem _ hx))]

theorem removeAll_render (n : Nat) (segs : List Segment) :
    ∀ (before : Str) (fuel : Nat), segs.length < fuel → noMarkerStart before = true →
      (∀ s ∈ segs, goodAlt s.alt = true ∧ goodUrl s.url = true ∧
        noMarkerStart s.after = true) →
      imageRegex.removeAll n fuel (render before segs) = withoutMarkers before segs := by
  induction segs with
  | nil =>
    intro before fuel hf hb _
    cases fuel with
    | zero => exact absurd hf (by simp)
    | succ fuel =>
      have : render before [] = before ++ [] := by simp [render]
      rw [this, Re.removeAll, search_plain n before [] hb (by simp), search_empty]
      simp [withoutMarkers]
  | cons s segs ih =>
    intro before fuel hf hb hs
    cases fuel with
    | zero => exact absurd hf (by simp)
    | succ fuel =>
      obtain ⟨ha, hu, hafter⟩ := hs s (List.mem_cons_self _ _)
      rw [render_cons, Re.removeAll, search_plain n before _ hb (marker_head _ _ _),
        search_marker n _ _ _ ha hu]
      simp only [Option.map_some', List.append_nil]
      rw [ih s.after fuel (by simpa using hf) hafter
        (fun x hx => hs x (List.mem_cons_of_mem _ hx)), withoutMarkers_cons]

theorem render_length (before : Str) (segs : List Segment) :
    segs.length ≤ (render before segs).length := by
  induction segs generalizing before with
  | nil => simp
  | cons s segs ih =>
    rw [render_cons]
    have := ih s.after
    simp only [List.length_append, List.length_cons, marker]
    omega

/-- C1 (as stated, refuted): each of these texts is a sequence of plain text and image
links `![alt](url)` whose URL starts with `http://`, yet the parser does not return the
link's URL and the text without the marker: a URL that is only `http://` is not matched, an
alt text with a line break is not matched, a URL is cut at its first `)`, an alt text is
cut at its first `](` that a URL follows, and a `![` in the text before a link is taken for
the start of the marker. -/
theorem parseMemosContent_counterexample :
    (httpUrl bareSchemeLink.url = true ∧
      Index.parseMemosContent (.str (render [] [bareSchemeLink])) =
        .ok ("![x](http://)".toList, []) ∧
      trim (withoutMarkers [] [bareSchemeLink]) = [] ∧
      [bareSchemeLink].map (fun s => s.url) = ["http://".toList]) ∧
    (httpUrl twoLineAltLink.url = true ∧
      Index.parseMemosContent (.str (render [] [twoLineAltLink])) =
        .ok ("![a\nb](http://x)".toList, [])) ∧
    (httpUrl parenUrlLink.url = true ∧
      Index.parseMemosContent (.str (render [] [parenUrlLink])) =
        .ok (".png)".toList, ["http://a/b(c".toList])) ∧
    (httpUrl bracketAltLink.url = true ∧
      Index.parseMemosContent (.str (render [] [bracketAltLink])) =
        .ok ("](http://z)".toList, ["http://y".toList])) ∧
    (httpUrl simpleLink.url = true ∧
      Index.parseMemosContent (.str (render "![".toList [simpleLink])) =
        .ok ([], ["http://a".toList]) ∧
      trim (withoutMarkers "![".toList [simpleLink]) = "![".toList) ∧
    Bulk.parseMemosContent (.str (render [] [bareSchemeLink])) =
      .ok ("![x](http://)".toList, []) := by
  decide

/-- C1 (amended): for every text made of plain text and N image links `![alt](url)`, where
no `![` occurs in the plain text, no alt text contains `](` or a line terminator, and every
URL is `http://` or `https://` followed by at least one character and contains no `)`,
`parseMemosContent` (of the worker and of the bulk script) returns exactly those N URLs in
document order, and the returned text is the input with each marker removed and the result
trimmed of leading and trailing white space; with N = 0 this is the trimmed input and an
empty list, which is also the result for every text in which no `](` occurs. -/
theorem parseMemosContent_links :
    (∀ (before : Str) (segs : List Segment), noMarkerStart before = true →
      (∀ s ∈ segs, goodAlt s.alt = true ∧ goodUrl s.url = true ∧
        noMarkerStart s.after = true) →
      Index.parseMemosContent (.str (render before segs)) =
        .ok (trim (withoutMarkers before segs), segs.map fun s => s.url) ∧
      Bulk.parseMemosContent (.str (render before segs)) =
        .ok (trim (withoutMarkers before segs), segs.map fun s => s.url)) ∧
    (∀ text : Str, noSeparator text = true →
      Index.parseMemosContent (.str text) = .ok (trim text, []) ∧
      Bulk.parseMemosContent (.str text) = .ok (trim text, [])) := by
  constructor
  · intro before segs hbefore hsegs
    have hfuel : segs.length < (render before segs).length + 1 :=
      Nat.lt_succ_of_le (render_length before segs)
    have himages : execImages (render before segs) = segs.map fun s => s.url :=
      execAll_render _ segs before _ hfuel hbefore hsegs
    have htext : stripImages (render before segs) = trim (withoutMarkers before segs) := by
      unfold stripImages
      rw [removeAll_render _ segs before _ hfuel hbefore hsegs]
    constructor
    · simp only [Index.parseMemosContent, himages, htext]
    · simp only [Bulk.parseMemosContent, himages, htext]
  · intro text htext
    have himages : execImages text = [] := by
      unfold execImages
      rw [Re.execAll, search_noSeparator _ _ htext]
    have hstrip : stripImages text = trim text := by
      unfold stripImages
      rw [Re.removeAll, search_noSeparator _ _ htext]
    constructor
    · simp only [Index.parseMemosContent, himages, hstrip]
    · simp only [Bulk.parseMemosContent, himages, hstrip]

theorem parseMemosContent_links_witness :
    Index.parseMemosContent (.str "Hello ![x](http://img/a.png)\nWorld".toList) =
      .ok ("Hello \nWorld".toList, ["http://img/a.png".toList]) ∧
    Index.parseMemosContent (.str " wow![ok] ".toList) = .ok ("wow![ok]".toList, []) :=
  ⟨(parseMemosContent_links.1 "Hello ".toList [helloLink] (by decide) (by decide)).1,
    (parseMemosContent_links.2 " wow![ok] ".toList (by decide)).1⟩

end MemosNotionSync
